import Mathlib

/-!
# Verification of the `lstore` storage engine (src/lstore)

A shallow embedding, in Lean 4, of the parts of the `lstore` Python code
base that the specification's claims are about:

* `Page`, `Record` (src/lstore/page.py, src/lstore/table.py),
* the buffer pool (src/lstore/bufferpool.py),
* the column index (src/lstore/index.py),
* the table, its page directory and its merge routine (src/lstore/table.py),
* the query engine (src/lstore/query.py),
* the two-phase lock manager (src/lstore/two_phase_lock.py) and the lock-mode
  selection of `Transaction.run` (src/lstore/transaction.py).

Modelling conventions, chosen to stay faithful to the Python semantics:

* **Rids.** The source uses strings `"b{n}"` / `"t{n}"` drawn from two
  counters.  They are modelled by the inductive `Rid` (`Rid.b n`, `Rid.t n`)
  together with `Rid.chars`, the exact character string of the rid, which is
  used whenever the source compares rids as strings (tuple comparison in
  `bisect.insort`).
* **Paths.** On-disk page paths (`.../pagerange_i/base/page_j` etc.) are
  modelled by the inductive `PagePath`; archive paths produced by
  `Table.archive_table` are modelled by the `PagePath.archived` constructor.
* **Heap.** Python passes `Page` objects by reference: the buffer pool, the
  query layer's `tail_page_cache` and local variables can all alias one page
  object, and in-place mutation of a record is visible through every alias.
  The embedding therefore keeps an explicit heap (`Store.heap : List Page`)
  and represents a Python reference to a page by its heap index; frames and
  the tail-page cache store heap indices, and mutation is an update of the
  heap cell, exactly mirroring object identity.
* **Disk.** Files are an association list `Store.disk` from `PagePath` to the
  page value obtained by deserialising the file.  `os.listdir(...)` followed
  by `sorted(...)` sorts the file names `page_i` as *strings*; this is
  modelled by sorting the indices by the decimal-digit string of `i`
  (`Nat.toDigits 10`), which is exactly the string order.
* **Exceptions.** Uncaught Python exceptions are modelled by the
  `PyResult.exn` result (for query operations) or by an `Option`/flag result
  (for internal helpers); the state returned alongside is the state at the
  moment the exception is raised, since mutations performed before the raise
  persist in Python.
* **Attribute errors.**  `table.Record.__init__` (table.py lines 19-25)
  assigns exactly the attributes `base_rid`, `indirection`, `rid`,
  `time_stamp`, `schema_encoding`, `columns`.  No code path ever assigns a
  `start_time` attribute to a `Record`, yet `Page.serialize` (page.py line
  54) and `Query._get_merged_lineage` (query.py line 236) read
  `record.start_time`.  In Python this raises `AttributeError`.  The
  embedding models the attribute read by `LRecord.start_time_attr`, which is
  `none` (the attribute does not exist), and the two call sites handle the
  `none` exactly as the Python exception flow does (propagate, resp. catch
  and return `None`).
* **Time.** `time.time()` is modelled by a monotone counter `clock` in the
  table state; nothing in the verified claims depends on actual time values.
* **Threads.** `Table.merge` spawns `Table._merge` on a background thread.
  Query operations are modelled by their synchronous effects (the spawn is
  recorded, the body is not run inline); the body `Table._merge` is modelled
  separately as `Table.mergeBody` and reasoned about directly, as the claims
  about merge address that routine.
* **Dictionaries.** Python `dict` / `OrderedDict` are modelled as
  association lists in insertion order with unique keys; deleting a key is
  modelled by filtering it out (identical to `del d[k]` on unique-key
  states, which are the only states Python dictionaries can represent).
-/

/-! ## Configuration constants (src/lstore/config.py) -/

def PAGE_RECORD_SIZE : Nat := 4
def PAGE_RANGE_SIZE : Nat := 2
def MERGE_THRESH : Int := 4
def POOL_SIZE : Nat := 5

/-! ## Rids and paths -/

/-- A record identifier: the source uses the strings `"b{n}"` (base rids) and
`"t{n}"` (tail rids), drawn from two independent counters. -/
inductive Rid where
  | b (n : Nat)
  | t (n : Nat)
deriving DecidableEq, Repr

/-- The character string of a rid, used where the source compares rids as
strings/bytes (e.g. tuple comparison inside `bisect.insort`). -/
def Rid.chars : Rid → List Char
  | .b n => 'b' :: Nat.toDigits 10 n
  | .t n => 't' :: Nat.toDigits 10 n

/-- An on-disk page path.  `base pr i` stands for
`<table>/pagerange_{pr}/base/page_{i}`, `tail pr i` for
`<table>/pagerange_{pr}/tail/page_{i}`, and `archived mc p` for the copy of
`p` that `Table.archive_table` places under
`<archives>/merge_{mc}/...` (table.py lines 149-158). -/
inductive PagePath where
  | base (pr : Nat) (i : Nat)
  | tail (pr : Nat) (i : Nat)
  | archived (mc : Nat) (p : PagePath)
deriving DecidableEq, Repr

/-! ## Records and pages (src/lstore/table.py lines 17-28, src/lstore/page.py) -/

/-- `table.Record`: the six attributes assigned by `Record.__init__`
(table.py lines 19-25).  Column entries are `Option Int` because tail
records may carry `None` in a column. -/
structure LRecord where
  base_rid : Rid
  indirection : Rid
  rid : Rid
  time_stamp : Nat
  schema_encoding : List Int
  columns : List (Option Int)
deriving DecidableEq, Repr

/-- Reading `record.start_time`.  `table.Record` never has a `start_time`
attribute (its constructor assigns `time_stamp` instead, table.py line 23,
and no other code assigns `start_time`), so the attribute read raises
`AttributeError`; this is modelled by the constant `none`. -/
def LRecord.start_time_attr (_ : LRecord) : Option Nat := none

/-- `page.Page`: a bounded list of records plus the `num_records` counter. -/
structure Page where
  num_records : Nat
  data : List LRecord
deriving DecidableEq, Repr

/-- `Page()` — a fresh empty page. -/
def Page.empty : Page := { num_records := 0, data := [] }

/-- `Page.has_capacity` (page.py line 14). -/
def Page.has_capacity (p : Page) : Bool := p.num_records < PAGE_RECORD_SIZE

/-- `Page.write` (page.py lines 17-23): append the record if there is
capacity and return the new record's offset (`num_records - 1` after the
increment, i.e. the old `num_records`); otherwise return `None` and leave
the page unchanged. -/
def Page.write (p : Page) (r : LRecord) : Option Nat × Page :=
  if p.has_capacity then
    (some p.num_records, { num_records := p.num_records + 1, data := p.data ++ [r] })
  else
    (none, p)

/-- `Page.read_index` (page.py lines 34-35); `none` models the `IndexError`
an out-of-range index raises. -/
def Page.read_index (p : Page) (i : Nat) : Option LRecord := p.data.get? i

/-- `Page.read_all` (page.py lines 31-32). -/
def Page.read_all (p : Page) : List LRecord := p.data

/-- Whether `Page.serialize` succeeds.  `serialize` reads
`record.start_time` for every record in the page (page.py line 54), an
attribute `table.Record` does not have, so serialisation raises
`AttributeError` as soon as the page holds at least one record; it succeeds
exactly on pages with no records. -/
def Page.serialize_ok (p : Page) : Bool :=
  p.data.all (fun r => r.start_time_attr.isSome)

/-! ## Association-list helpers (Python `dict` / `OrderedDict` in insertion
order, unique keys) -/

/-- `d.get(k)` / `d[k]`: first binding of the key. -/
def alookup {κ α : Type} [DecidableEq κ] (l : List (κ × α)) (k : κ) : Option α :=
  match l.find? (fun kv => kv.1 = k) with
  | some kv => some kv.2
  | none => none

/-- `d[k] = v`: replace the value at the key in place if present (dict
update keeps the key's position), else append the new binding. -/
def aupdate {κ α : Type} [DecidableEq κ] (l : List (κ × α)) (k : κ) (v : α) :
    List (κ × α) :=
  match l with
  | [] => [(k, v)]
  | kv :: rest =>
      if kv.1 = k then (k, v) :: rest else kv :: aupdate rest k v

/-- `del d[k]`: remove the key (Python dict keys are unique; on unique-key
lists this is exactly deletion of the one binding). -/
def aerase {κ α : Type} [DecidableEq κ] : List (κ × α) → κ → List (κ × α)
  | [], _ => []
  | kv :: rest, k => if kv.1 = k then aerase rest k else kv :: aerase rest k

/-! ## The buffer pool (src/lstore/bufferpool.py) -/

/-- A buffer-pool frame (bufferpool.py lines 222-258): `pid` is the heap
index of the `Page` object the frame owns. -/
structure Frame where
  pid : Nat
  pin_count : Nat
  dirty_bit : Bool
deriving DecidableEq, Repr

/-- The mutable store: the buffer pool's fields (`frames` in LRU order —
least recently used first, most recently used last — and the `io_count`
metric, bufferpool.py lines 7-14), the Python object heap for `Page`
objects, and the file system. -/
structure Store where
  frames : List (PagePath × Frame)
  io_count : Nat
  pool_size : Nat
  heap : List Page
  disk : List (PagePath × Page)
deriving DecidableEq, Repr

/-- Dereference a page object. -/
def hget (h : List Page) (pid : Nat) : Option Page := h.get? pid

/-- In-place mutation of a page object. -/
def hset (h : List Page) (pid : Nat) (p : Page) : List Page := h.set pid p

/-- Allocation of a fresh `Page` object. -/
def halloc (h : List Page) (p : Page) : Nat × List Page := (h.length, h ++ [p])

/-- Write a serialised page to a file (`open(path,'wb');
f.write(page.serialize())`, the direct-file-write idiom used by
`query.insert`, `table` page creation, and `Table._merge`).  `none` models
the uncaught `AttributeError` raised by `Page.serialize` on a non-empty
page. -/
def write_file (s : Store) (path : PagePath) (p : Page) : Option Store :=
  if p.serialize_ok then some { s with disk := aupdate s.disk path p } else none

/-- `BufferPool._update_lru` (bufferpool.py lines 22-28): pop the key and
re-insert it at the most-recently-used end. -/
def BufferPool.update_lru (s : Store) (path : PagePath) : Store :=
  match alookup s.frames path with
  | none => s
  | some f => { s with frames := aerase s.frames path ++ [(path, f)] }

/-- `BufferPool.write_to_disk` (bufferpool.py lines 115-134): bump
`io_count`, then serialise and write; any exception is caught and `False`
returned, so a page that fails to serialise leaves the disk unchanged. -/
def BufferPool.write_to_disk (s : Store) (path : PagePath) (pid : Nat) :
    Bool × Store :=
  let s := { s with io_count := s.io_count + 1 }
  match hget s.heap pid with
  | none => (false, s)
  | some p =>
      if p.serialize_ok then (true, { s with disk := aupdate s.disk path p })
      else (false, s)

/-- `BufferPool.read_from_disk` (bufferpool.py lines 137-155): bump
`io_count`; if the file exists, deserialise it into a fresh `Page` object
(a new heap cell) and return it, else return `None`. -/
def BufferPool.read_from_disk (s : Store) (path : PagePath) :
    Option Nat × Store :=
  let s := { s with io_count := s.io_count + 1 }
  match alookup s.disk path with
  | none => (none, s)
  | some p =>
      let (pid, h) := halloc s.heap p
      (some pid, { s with heap := h })

/-- First frame (scanning from the LRU end) with pin count 0 and a clear
dirty bit. -/
def BufferPool.first_clean_unpinned (frames : List (PagePath × Frame)) :
    Option (PagePath × Frame) :=
  frames.find? (fun kv => kv.2.pin_count = 0 ∧ kv.2.dirty_bit = false)

/-- First frame (scanning from the LRU end) with pin count 0 and a set
dirty bit. -/
def BufferPool.first_dirty_unpinned (frames : List (PagePath × Frame)) :
    Option (PagePath × Frame) :=
  frames.find? (fun kv => kv.2.pin_count = 0 ∧ kv.2.dirty_bit = true)

/-- The scan loop of `BufferPool.evict_page` (bufferpool.py lines 43-52):
walk the frames from the LRU end; stop (`.inr`) at the first unpinned
clean frame; remember (in `first_dirty`) the first unpinned dirty frame
seen; `.inl` returns that memo when no clean frame stops the walk. -/
def BufferPool.evict_scan (first_dirty : Option (PagePath × Frame)) :
    List (PagePath × Frame) → Option (PagePath × Frame) ⊕ (PagePath × Frame)
  | [] => .inl first_dirty
  | kv :: rest =>
      if kv.2.pin_count = 0 then
        if kv.2.dirty_bit = false then .inr kv
        else
          match first_dirty with
          | none => BufferPool.evict_scan (some kv) rest
          | some fd => BufferPool.evict_scan (some fd) rest
      else BufferPool.evict_scan first_dirty rest

/-- `BufferPool.evict_page` (bufferpool.py lines 31-63): if the pool is not
full, succeed without evicting; otherwise scan from the LRU end, delete the
first clean unpinned frame; failing that, write the first dirty unpinned
frame to disk (ignoring the write's success flag) and delete it; if every
frame is pinned, return `False`. -/
def BufferPool.evict_page (s : Store) : Bool × Store :=
  if s.frames.length < s.pool_size then (true, s)
  else
    match BufferPool.evict_scan none s.frames with
    | .inr kv => (true, { s with frames := aerase s.frames kv.1 })
    | .inl (some kv) =>
        let (_, s') := BufferPool.write_to_disk s kv.1 kv.2.pid
        (true, { s' with frames := aerase s'.frames kv.1 })
    | .inl none => (false, s)

/-- `BufferPool.add_frame` (bufferpool.py lines 70-97).  `page_data` is the
optional `Page` object argument (a heap index).  Returns the frame (the
Python method returns the `Frame` object; the model returns its value,
whose `pid` identifies the shared page object) or `None`. -/
def BufferPool.add_frame (s : Store) (path : PagePath) (page_data : Option Nat) :
    Option Frame × Store :=
  match alookup s.frames path with
  | some f => (some f, BufferPool.update_lru s path)
  | none =>
    if s.frames.length ≥ s.pool_size ∧ (BufferPool.evict_page s).1 = false then
      (none, (BufferPool.evict_page s).2)
    else
      let s := (BufferPool.evict_page s).2
      match page_data with
      | some pid =>
          let f : Frame := { pid := pid, pin_count := 0, dirty_bit := false }
          (some f, { s with frames := s.frames ++ [(path, f)] })
      | none =>
          match BufferPool.read_from_disk s path with
          | (none, s') => (none, s')
          | (some pid, s') =>
              let f : Frame := { pid := pid, pin_count := 0, dirty_bit := false }
              (some f, { s' with frames := s'.frames ++ [(path, f)] })

/-- Increment the pin count of the frame at a path (in place). -/
def BufferPool.bump_pin (s : Store) (path : PagePath) : Store :=
  { s with
    frames := s.frames.map (fun kv =>
      if kv.1 = path then (kv.1, { kv.2 with pin_count := kv.2.pin_count + 1 })
      else kv) }

/-- `BufferPool.get_page` (bufferpool.py lines 158-180): on a hit,
increment the pin count, bump the frame to the MRU end and return its page
object; on a miss, `add_frame` (which may read from disk or fail), then
increment the new frame's pin count.  Returns the heap index of the page
object, or `None`. -/
def BufferPool.get_page (s : Store) (path : PagePath) : Option Nat × Store :=
  match alookup s.frames path with
  | some f =>
      let s := BufferPool.bump_pin s path
      let s := BufferPool.update_lru s path
      (some f.pid, s)
  | none =>
      match BufferPool.add_frame s path none with
      | (some f, s') => (some f.pid, BufferPool.bump_pin s' path)
      | (none, s') => (none, s')

/-- `BufferPool.unpin_page` (bufferpool.py lines 183-188).  Defined for
completeness: no query or table code path ever calls it. -/
def BufferPool.unpin_page (s : Store) (path : PagePath) : Store :=
  { s with
    frames := s.frames.map (fun kv =>
      if kv.1 = path then (kv.1, { kv.2 with pin_count := kv.2.pin_count - 1 })
      else kv) }

/-- `BufferPool.abs_remove_frame` (bufferpool.py lines 100-112): remove the
frame without writing it back. -/
def BufferPool.abs_remove_frame (s : Store) (path : PagePath) : Store :=
  { s with frames := aerase s.frames path }

/-! ## Ordering helpers

String comparison of decimal file suffixes and of rid byte-strings, used by
`sorted(os.listdir(...))`, `tail_pages[-1]` and `bisect.insort` on
`(key, rid_bytes)` tuples. -/

/-- Lexicographic strict order on character lists — exactly Python's
string/bytes `<`. -/
def chars_lt : List Char → List Char → Bool
  | [], [] => false
  | [], _ :: _ => true
  | _ :: _, [] => false
  | c :: cs, d :: ds =>
      if c.val < d.val then true
      else if d.val < c.val then false
      else chars_lt cs ds

/-- `a <= b` on character lists. -/
def chars_le (a b : List Char) : Bool := !(chars_lt b a)

/-- Insert into a sorted list after all elements `<=` the new one — the
position `bisect.insort` / `bisect_right` picks. -/
def insort_by {α : Type} (le : α → α → Bool) (x : α) : List α → List α
  | [] => [x]
  | y :: ys => if le y x then y :: insort_by le x ys else x :: y :: ys

/-- Stable sort (Python `sorted`): fold the list from the left, inserting
each element after its equals. -/
def sort_by {α : Type} (le : α → α → Bool) (l : List α) : List α :=
  l.foldl (fun acc x => insort_by le x acc) []

/-- The string order `"page_{a}" <= "page_{b}"`, i.e. decimal-digit string
comparison of the indices. -/
def page_name_le (a b : Nat) : Bool :=
  chars_le (Nat.toDigits 10 a) (Nat.toDigits 10 b)

/-- Python tuple order on `(key, rid_bytes)` pairs: `<=` with the rid
compared as its byte string. -/
def key_rid_le (a b : Int × Rid) : Bool :=
  if a.1 < b.1 then true
  else if b.1 < a.1 then false
  else chars_le a.2.chars b.2.chars

/-! ## The column index (src/lstore/index.py) -/

/-- The `Index` object.  The per-column B+-tree is modelled by the list of
its `(key, value)` pairs in leaf order (the tree's only observable
behaviour: `__setitem__` inserts at the `bisect_left` position of the key,
`__getitem__` returns the first pair with the key, slices walk pairs in
leaf order, `max_key` is the last leaf's last key — on a sorted pair list:
positional insert before equal keys, first match, in-order walk, last
element). -/
structure IndexState where
  num_columns : Nat
  /-- `insert_cache[col]`, kept sorted (index.py line 9). -/
  insert_cache : List (List (Int × Rid))
  /-- `max_keys[col]` (index.py line 10). -/
  max_keys : List (Option Int)
  /-- `unsorted_cache[col]` (index.py line 12). -/
  unsorted_cache : List (List (Int × Rid))
  /-- `primary_key_cache` (index.py line 14). -/
  primary_key_cache : List (Int × Rid)
  /-- `sorted_records` (index.py line 16), kept sorted by `bisect.insort`. -/
  sorted_records : List (Int × Rid)
  /-- one B+-tree per column (index.py lines 17-18, 24-32). -/
  indices : List (List (Int × Rid))
deriving DecidableEq, Repr

/-- `Index(table)` — a fresh index for `n` columns (index.py lines 5-18). -/
def IndexState.fresh (n : Nat) : IndexState :=
  { num_columns := n
    insert_cache := List.replicate n []
    max_keys := List.replicate n none
    unsorted_cache := List.replicate n []
    primary_key_cache := []
    sorted_records := []
    indices := List.replicate n [] }

/-- `BPlusTree.__setitem__`: insert the pair at the `bisect_left` position
of the key (before existing equal keys). -/
def tree_setitem (t : List (Int × Rid)) (k : Int) (v : Rid) : List (Int × Rid) :=
  match t with
  | [] => [(k, v)]
  | kv :: rest => if kv.1 < k then kv :: tree_setitem rest k v else (k, v) :: kv :: rest

/-- `BPlusTree.__getitem__` with a point key: first pair carrying the key;
`none` models the `KeyError`. -/
def tree_getitem (t : List (Int × Rid)) (k : Int) : Option Rid :=
  match t.find? (fun kv => kv.1 = k) with
  | some kv => some kv.2
  | none => none

/-- `BPlusTree.max_key`: the last leaf's last key (`none` on an empty
tree). -/
def tree_max_key (t : List (Int × Rid)) : Option Int := t.getLast?.map (·.1)

/-- `BPlusTree.batch_insert` (index.py lines 289-295): raise `ValueError`
(modelled by `none`) when the tree is non-empty and the first key to insert
is not greater than the current maximum; otherwise insert the pairs in
order. -/
def tree_batch_insert (t : List (Int × Rid)) (pairs : List (Int × Rid)) :
    Option (List (Int × Rid)) :=
  match tree_max_key t, pairs with
  | some m, p :: _ =>
      if p.1 ≤ m then none
      else some (pairs.foldl (fun acc kv => tree_setitem acc kv.1 kv.2) t)
  | _, _ => some (pairs.foldl (fun acc kv => tree_setitem acc kv.1 kv.2) t)

/-- `Index._merge_sorted_lists` (index.py lines 90-107). -/
def merge_sorted_lists : List (Int × Rid) → List (Int × Rid) → List (Int × Rid)
  | [], l2 => l2
  | l1, [] => l1
  | a :: l1, b :: l2 =>
      if a.1 ≤ b.1 then a :: merge_sorted_lists l1 (b :: l2)
      else b :: merge_sorted_lists (a :: l1) l2

/-- Split a list into chunks of `sz` (the `range(0, len, batch_size)`
slicing loop of `_flush_cache_for_column`). -/
def chunks {α : Type} (sz : Nat) : List α → List (List α)
  | [] => []
  | x :: xs =>
    if _h : sz = 0 then [x :: xs]
    else ((x :: xs).take sz) :: chunks sz ((x :: xs).drop sz)
termination_by l => l.length
decreasing_by
  simp only [List.length_drop, List.length_cons]
  omega

/-- `Index._flush_cache_for_column` (index.py lines 113-145): sort the
unsorted cache, merge it into the sorted insert cache, push the result into
the column's B+-tree in batches of 5000 (falling back to per-entry inserts
when `batch_insert` raises `ValueError`), update `max_keys`, clear the
caches. -/
def Index.flush_cache_for_column (ix : IndexState) (col : Nat) : IndexState :=
  let unsorted := (ix.unsorted_cache.get? col).getD []
  let cache0 := (ix.insert_cache.get? col).getD []
  let cache :=
    if unsorted ≠ [] then
      let sorted_unsorted := sort_by (fun a b => a.1 ≤ b.1) unsorted
      if cache0 ≠ [] then merge_sorted_lists cache0 sorted_unsorted
      else sorted_unsorted
    else cache0
  let ix := { ix with
    unsorted_cache := if unsorted ≠ [] then ix.unsorted_cache.set col [] else ix.unsorted_cache
    insert_cache := if unsorted ≠ [] then ix.insert_cache.set col cache else ix.insert_cache }
  if cache = [] then ix
  else
    let tree0 := (ix.indices.get? col).getD []
    let tree :=
      (chunks 5000 cache).foldl
        (fun t batch =>
          match tree_batch_insert t batch with
          | some t' => t'
          | none => batch.foldl (fun acc kv => tree_setitem acc kv.1 kv.2) t)
        tree0
    let mk0 := (ix.max_keys.get? col).getD none
    let last_key := (cache.getLast?.map (·.1)).getD 0
    let mk :=
      match mk0 with
      | none => some last_key
      | some m => if last_key > m then some last_key else some m
    { ix with
      indices := ix.indices.set col tree
      max_keys := ix.max_keys.set col mk
      insert_cache := ix.insert_cache.set col [] }

/-- `Index.flush_cache` (index.py lines 59-61). -/
def Index.flush_cache (ix : IndexState) : IndexState :=
  (List.range ix.num_columns).foldl Index.flush_cache_for_column ix

/-- `Index.add_record` (index.py lines 67-84): update the primary-key cache
and `sorted_records` from column 0, then append `(value, rid)` to each
non-`None` column's unsorted cache (flushing a column whose *insert* cache
exceeds 50000 entries — never the case in the verified scenarios but
modelled anyway).  `none` models the `IndexError` raised when the record
has no columns, or the `KeyError` raised when it has more columns than the
index (both propagate to the caller). -/
def Index.add_record (ix : IndexState) (r : LRecord) : Option IndexState :=
  match r.columns.get? 0 with
  | none => none
  | some pk =>
    let ix :=
      match pk with
      | none => ix
      | some k =>
          { ix with
            primary_key_cache := aupdate ix.primary_key_cache k r.rid
            sorted_records := insort_by key_rid_le (k, r.rid) ix.sorted_records }
    let step := fun (acc : Option IndexState) (ck : Nat × Option Int) =>
      match acc with
      | none => none
      | some ix =>
        match ck.2 with
        | none => some ix
        | some k =>
            if h : ck.1 < ix.unsorted_cache.length then
              let ix := { ix with
                unsorted_cache :=
                  ix.unsorted_cache.set ck.1 ((ix.unsorted_cache.get ⟨ck.1, h⟩) ++ [(k, r.rid)]) }
              if ((ix.insert_cache.get? ck.1).getD []).length ≥ 50000 then
                some (Index.flush_cache_for_column ix ck.1)
              else some ix
            else none
    r.columns.enum.foldl step (some ix)

/-- `Index.locate` (index.py lines 151-165): primary-key cache fast path
for column 0, else flush the column's cache and consult its tree
(`KeyError` → `False`).  Returns the rid, or `none` for a `False`
result. -/
def Index.locate (ix : IndexState) (column : Nat) (value : Option Int) :
    Option Rid × IndexState :=
  match column, value with
  | 0, some v =>
      match alookup ix.primary_key_cache v with
      | some r => (some r, ix)
      | none =>
          let ix := Index.flush_cache_for_column ix 0
          (tree_getitem ((ix.indices.get? 0).getD []) v, ix)
  | c, v =>
      let ix := Index.flush_cache_for_column ix c
      match v with
      | none => (none, ix)
      | some v => (tree_getitem ((ix.indices.get? c).getD []) v, ix)

/-- `Index.locate_range` (index.py lines 171-188) for column 0: slice
`sorted_records` between `(begin, b"")` and `(end, b"\xff")` — i.e. keep
the pairs whose key lies in `[begin, end]`, rid byte-strings being strictly
between those sentinels — and build the result dict (later pairs with the
same key overwrite earlier ones).  A falsy (empty) result is `False`,
modelled as `none`. -/
def Index.locate_range_col0 (ix : IndexState) (b e : Int) :
    Option (List (Int × Rid)) :=
  let hits := ix.sorted_records.filter (fun kv => b ≤ kv.1 ∧ kv.1 ≤ e)
  let d := hits.foldl (fun acc kv => aupdate acc kv.1 kv.2) []
  if d = [] then none else some d

/-! ## Table state (src/lstore/table.py lines 30-103) -/

/-- A page-directory value.  Query operations store a `[path, offset]` pair
(`pairLoc`); `Table._merge` stores lists of location pairs (`listLoc`,
table.py lines 277 and 291-315).  The two shapes are read differently —
and incompatibly — by the two sides, which the access functions below
model. -/
inductive PDirEntry where
  | pairLoc (p : PagePath) (off : Nat)
  | listLoc (ls : List (PagePath × Nat))
deriving DecidableEq, Repr

/-- `base_path, base_offset = self.table.page_directory[rid]` (query.py
lines 40, 206, 219, 293, 321, 328, 465): unpacking a `[path, offset]` pair
succeeds; unpacking a list of location pairs either raises `ValueError`
(length ≠ 2) or binds a location pair as the "path", which makes the
following buffer-pool call raise (`TypeError`: unhashable list) — an
exception either way, modelled by `none`. -/
def PDirEntry.as_pair : PDirEntry → Option (PagePath × Nat)
  | .pairLoc p off => some (p, off)
  | .listLoc _ => none

/-- `original_base_path, base_offset = locations[0]` (table.py line 299):
for a `listLoc` the first element is a location pair and unpacks; for a
`pairLoc` the first element is the path *string*, and unpacking a
multi-character string into two variables raises `ValueError`; an empty
`listLoc` raises `IndexError`.  Both exceptions are modelled by `none`. -/
def PDirEntry.merge_head : PDirEntry → Option (PagePath × Nat)
  | .listLoc (l :: _) => some l
  | .listLoc [] => none
  | .pairLoc _ _ => none

/-- `locations[1:]` (table.py line 305) on a `listLoc`. -/
def PDirEntry.merge_tail : PDirEntry → List (PagePath × Nat)
  | .listLoc ls => ls.tail
  | .pairLoc _ _ => []

/-- The `Table` object (table.py lines 37-67).  `record_cache`,
`tail_page_indices` and `tail_page_paths` are omitted: they are only read
by `cache_record`/`get_cached_record`/`get_tail_page_path`, which no
modelled operation calls.  `unmerged_updates_attr` models the
`self.unmerged_updates` attribute that `Table.merge` creates (table.py
line 336); `clock` models `time.time()`. -/
structure Table where
  num_columns : Nat
  key : Nat
  pr_unmerged_updates : List Int
  page_directory : List (Rid × PDirEntry)
  index : IndexState
  store : Store
  last_path : PagePath
  merge_count : Nat
  merge_thread_alive : Bool
  tail_page_locations : List (Nat × List (Nat × PagePath))
  latest_tail_indices : List (Nat × Nat)
  current_base_rid : Nat
  current_tail_rid : Nat
  clock : Nat
  unmerged_updates_attr : Option Int
deriving DecidableEq, Repr

/-- The `Query` object's view (query.py lines 16-18): the table plus the
per-query `tail_page_cache`, which maps a page-range index to the cached
`(path, page-object)` pair — the page object being a heap index, or `none`
when `get_page` returned `None` and the cache stored it anyway (query.py
lines 69-71). -/
structure Engine where
  table : Table
  tail_page_cache : List (Nat × (PagePath × Option Nat))
deriving DecidableEq, Repr

/-- `Table(name, num_columns, key, db_path)` followed by
`_init_page_range_storage` (table.py lines 37-102): empty serialised
`pagerange_0/base/page_0` and `pagerange_0/tail/page_0` files,
`pr_unmerged_updates = [0]`, `latest_tail_indices = {0: 0}`, both rid
counters at 0. -/
def Table.fresh (n k : Nat) : Table :=
  { num_columns := n
    key := k
    pr_unmerged_updates := [0]
    page_directory := []
    index := IndexState.fresh n
    store :=
      { frames := []
        io_count := 0
        pool_size := POOL_SIZE
        heap := []
        disk := [(PagePath.base 0 0, Page.empty), (PagePath.tail 0 0, Page.empty)] }
    last_path := PagePath.base 0 0
    merge_count := 0
    merge_thread_alive := false
    tail_page_locations := []
    latest_tail_indices := [(0, 0)]
    current_base_rid := 0
    current_tail_rid := 0
    clock := 0
    unmerged_updates_attr := none }

/-- A fresh `Query(table)` for a fresh table. -/
def Engine.fresh (n k : Nat) : Engine :=
  { table := Table.fresh n k, tail_page_cache := [] }

/-- `int(path.split("pagerange_")[1].split("/")[0])` (query.py lines 63,
332, 392): the page-range index embedded in a page path (archive paths
contain the same `pagerange_{i}` component). -/
def pagerange_of : PagePath → Nat
  | .base pr _ => pr
  | .tail pr _ => pr
  | .archived _ p => pagerange_of p

/-- `Query._parse_page_path` (query.py lines 159-170): the page-range index
and page index embedded in a path. -/
def parse_page_path : PagePath → Nat × Nat
  | .base pr i => (pr, i)
  | .tail pr i => (pr, i)
  | .archived _ p => parse_page_path p

/-- The indices `i` of the files `pagerange_{pr}/base/page_{i}` present on
disk (`os.listdir` of the base directory), in directory order. -/
def base_indices (s : Store) (pr : Nat) : List Nat :=
  s.disk.filterMap (fun kv =>
    match kv.1 with
    | .base pr' i => if pr' = pr then some i else none
    | _ => none)

/-- The indices of the tail-page files of a page range. -/
def tail_indices (s : Store) (pr : Nat) : List Nat :=
  s.disk.filterMap (fun kv =>
    match kv.1 with
    | .tail pr' i => if pr' = pr then some i else none
    | _ => none)

/-- `Table.get_tail_page_location` (table.py lines 376-398): if
`tail/page_0` does not exist, create it (one `Page` object shared by the
file write and the new frame) and return `(page_0, 0)`; otherwise return
the last tail page in *string-sorted* order and its parsed index. -/
def Table.get_tail_page_location (t : Table) (pr : Nat) : (PagePath × Nat) × Table :=
  if (alookup t.store.disk (PagePath.tail pr 0)).isNone then
    let (pid, h) := halloc t.store.heap Page.empty
    let s := { t.store with heap := h }
    let s :=
      match write_file s (PagePath.tail pr 0) Page.empty with
      | some s' => s'
      | none => s
    let (_, s) := BufferPool.add_frame s (PagePath.tail pr 0) (some pid)
    ((PagePath.tail pr 0, 0), { t with store := s })
  else
    let files := sort_by page_name_le (tail_indices t.store pr)
    match files.getLast? with
    | none => ((PagePath.tail pr 0, 0), t)
    | some last => ((PagePath.tail pr last, last), t)

/-- `Table.create_new_tail_page` (table.py lines 400-433): compute the next
tail index from `latest_tail_indices` (or by scanning), write a fresh empty
page file, record the new index in the caches, return `(path, index)`. -/
def Table.create_new_tail_page (t : Table) (pr : Nat) : (PagePath × Nat) × Table :=
  let (new_index, t) :=
    match alookup t.latest_tail_indices pr with
    | some last => (last + 1, t)
    | none =>
        let ((_, last), t) := t.get_tail_page_location pr
        (last + 1, t)
  let path := PagePath.tail pr new_index
  let s :=
    match write_file t.store path Page.empty with
    | some s' => s'
    | none => t.store
  let t := { t with
    store := s
    latest_tail_indices := aupdate t.latest_tail_indices pr new_index
    tail_page_locations :=
      aupdate t.tail_page_locations pr
        (aupdate ((alookup t.tail_page_locations pr).getD []) new_index path) }
  ((path, new_index), t)

/-- `Table.merge` (table.py lines 331-339): under the merge lock, spawn the
`_merge` body on a background thread if none is alive, and set the (new)
`unmerged_updates` attribute to 0.  Only the synchronous effect is
modelled; the thread body is `Table.mergeBody` below. -/
def Table.merge (t : Table) (_pr : Nat) : Table :=
  if !t.merge_thread_alive then
    { t with merge_thread_alive := true, unmerged_updates_attr := some 0 }
  else t

/-! ## Results of Python-level calls -/

/-- The observable outcome of a Python call in the query/table layer:
an uncaught exception, `True`, `False`, `None`, a list of records, or a
number. -/
inductive PyResult where
  | exn
  | retTrue
  | retFalse
  | retNone
  | records (rs : List LRecord)
  | num (n : Int)
deriving DecidableEq, Repr

/-! ## The merge routine (src/lstore/table.py lines 161-329) -/

/-- One step of the flush loops at the top of `Table._merge` (table.py
lines 167-185): `get_page` the file (pinning it), and if a page came back,
serialise it to disk — which raises `AttributeError` for any page that
holds a record, since `Page.serialize` reads the non-existent
`record.start_time`.  The `error` branch carries the state at the raise. -/
def merge_flush_step (s : Store) (path : PagePath) : Except Store Store :=
  match BufferPool.get_page s path with
  | (none, s') => .ok s'
  | (some pid, s') =>
      match hget s'.heap pid with
      | none => .ok s'
      | some page =>
          match write_file s' path page with
          | some s'' => .ok s''
          | none => .error s'

/-- Sequence a crashing step over a list, short-circuiting on the first
exception. -/
def seq_fold {σ α : Type} (f : σ → α → Except σ σ) (init : σ) (xs : List α) :
    Except σ σ :=
  xs.foldl
    (fun acc x =>
      match acc with
      | .error s => .error s
      | .ok s => f s x)
    (.ok init)

/-- `Table.archive_table` via `copy_directory` (table.py lines 107-158):
copy every file under the table directory into the archive directory for
the current merge count (`merge_count` is never incremented anywhere, so
repeated merges overwrite the same `merge_0` archive). -/
def Table.archive_table (t : Table) : Table :=
  let table_files := t.store.disk.filter (fun kv =>
    match kv.1 with
    | .archived _ _ => false
    | _ => true)
  let s := table_files.foldl
    (fun s kv => { s with disk := aupdate s.disk (PagePath.archived t.merge_count kv.1) kv.2 })
    t.store
  { t with store := s }

/-- `Table._merge` (table.py lines 161-329), run under the merge lock.  The
steps, in source order: flush the range's base and tail pages to disk
(raising on any non-empty page), archive the table directory, read every
base and tail record into memory (pinning every page again), drop the
frames and delete the files, reset `page_directory` to `{}`, fold the tail
records into the base records in memory, write the merged records back into
fresh base pages (raising when a non-empty page is serialised), re-create
`tail/page_0`, rebuild the page directory with archived locations, replace
the index, and zero the range's unmerged-update counter.  The result is
`.retNone` on normal completion and `.exn` when an exception escapes, the
returned table being the state at that moment. -/
def Table.mergeBody (t : Table) (pr : Nat) : PyResult × Table :=
  let base_files := (sort_by page_name_le (base_indices t.store pr)).map (PagePath.base pr)
  let tail_files := (sort_by page_name_le (tail_indices t.store pr)).map (PagePath.tail pr)
  -- flush base pages (lines 168-175), then tail pages (lines 178-185)
  match seq_fold merge_flush_step t.store base_files with
  | .error s => (.exn, { t with store := s })
  | .ok s =>
  match seq_fold merge_flush_step s tail_files with
  | .error s => (.exn, { t with store := s })
  | .ok s =>
  -- archive the current table state (lines 187-188)
  let t := Table.archive_table { t with store := s }
  let s := t.store
  -- read all base records into memory (lines 199-210); `base_file_paths`
  -- collects every listed path, the records only those of pages that load
  let base_files2 := (sort_by page_name_le (base_indices s pr)).map (PagePath.base pr)
  let (s, all_base) := base_files2.foldl
    (fun (acc : Store × List (Rid × LRecord)) path =>
      match BufferPool.get_page acc.1 path with
      | (none, s') => (s', acc.2)
      | (some pid, s') =>
          match hget s'.heap pid with
          | none => (s', acc.2)
          | some page => (s', page.read_all.foldl (fun a r => aupdate a r.base_rid r) acc.2))
    (s, [])
  -- read all tail records into memory (lines 213-223)
  let tail_files2 := (sort_by page_name_le (tail_indices s pr)).map (PagePath.tail pr)
  let (s, all_tail) := tail_files2.foldl
    (fun (acc : Store × List LRecord) path =>
      match BufferPool.get_page acc.1 path with
      | (none, s') => (s', acc.2)
      | (some pid, s') =>
          match hget s'.heap pid with
          | none => (s', acc.2)
          | some page => (s', acc.2 ++ page.read_all))
    (s, [])
  -- remove the frames and files (lines 226-232)
  let s := (base_files2 ++ tail_files2).foldl
    (fun s p =>
      let s := BufferPool.abs_remove_frame s p
      { s with disk := aerase s.disk p })
    s
  -- `old_page_directory = self.page_directory.copy(); self.page_directory = {}`
  -- (lines 239-240)
  let old_pd := t.page_directory
  -- fold tail records into base records, in place (lines 242-252); later
  -- (newer) tail records overwrite earlier ones
  let merged_base := all_tail.foldl
    (fun acc tr =>
      match alookup acc tr.base_rid with
      | none => acc
      | some br =>
          aupdate acc tr.base_rid
            { br with
              columns := tr.columns
              schema_encoding := List.replicate tr.columns.length 0
              indirection := tr.base_rid
              time_stamp := tr.time_stamp })
    all_base
  -- write merged records back to base pages (lines 259-283); serialising a
  -- full or final non-empty page raises
  let wb := seq_fold
    (fun (st : Nat × Page × List (Rid × PDirEntry) × Store) (rv : Rid × LRecord) =>
      let (page_index, current_page, pd, s) := st
      let step2 := fun (page_index : Nat) (current_page : Page) (pd : List (Rid × PDirEntry)) (s : Store) =>
        let (off?, page') := current_page.write rv.2
        let pd := aupdate pd rv.2.base_rid
          (PDirEntry.listLoc [(PagePath.base pr page_index, off?.getD 0)])
        Except.ok (page_index, page', pd, s)
      if current_page.has_capacity then step2 page_index current_page pd s
      else
        match write_file s (PagePath.base pr page_index) current_page with
        | none => .error (page_index, current_page, pd, s)
        | some s' => step2 (page_index + 1) Page.empty pd s')
    (0, Page.empty, ([] : List (Rid × PDirEntry)), s)
    merged_base
  match wb with
  | .error (_, _, pd, s) => (.exn, { t with store := s, page_directory := pd })
  | .ok (page_index, current_page, pd, s) =>
  -- write the last page if it contains any records (lines 279-283)
  let last_write : Except Store Store :=
    if current_page.num_records > 0 then
      match write_file s (PagePath.base pr page_index) current_page with
      | none => .error s
      | some s' => .ok s'
    else .ok s
  match last_write with
  | .error s => (.exn, { t with store := s, page_directory := pd })
  | .ok s =>
  -- re-create `tail/page_0` (lines 286-288)
  let s :=
    match write_file s (PagePath.tail pr 0) Page.empty with
    | some s' => s'
    | none => s
  -- build the new page directory with archived locations (lines 291-315)
  let npd := seq_fold
    (fun (acc : List (Rid × PDirEntry)) (kv : Rid × PDirEntry) =>
      match alookup pd kv.1 with
      | none => .ok acc
      | some cur =>
          match cur.merge_head with
          | none => .error acc
          | some cur_loc =>
              match kv.2.merge_head with
              | none => .error acc
              | some (obp, obo) =>
                  let arch_base := (PagePath.archived t.merge_count obp, obo)
                  let arch_tails := kv.2.merge_tail.map
                    (fun l => (PagePath.archived t.merge_count l.1, l.2))
                  .ok (acc ++ [(kv.1, PDirEntry.listLoc (arch_base :: arch_tails ++ [cur_loc]))]))
    ([] : List (Rid × PDirEntry))
    old_pd
  match npd with
  | .error _ => (.exn, { t with store := s, page_directory := pd })
  | .ok new_pd =>
  -- `self.page_directory = new_page_directory` (line 318), then rebuild the
  -- index from the merged records (lines 321-325)
  let t := { t with store := s, page_directory := new_pd }
  let ixr := seq_fold
    (fun (ix : IndexState) (rv : Rid × LRecord) =>
      match Index.add_record ix rv.2 with
      | none => .error ix
      | some ix' => .ok ix')
    (IndexState.fresh t.num_columns)
    merged_base
  match ixr with
  | .error ix => (.exn, { t with index := ix })
  | .ok ix =>
  let t := { t with index := Index.flush_cache ix }
  -- `self.pr_unmerged_updates[page_range_index] = 0` (line 329)
  if pr < t.pr_unmerged_updates.length then
    (.retNone, { t with pr_unmerged_updates := t.pr_unmerged_updates.set pr 0 })
  else
    (.exn, t)

/-! ## The query engine (src/lstore/query.py) -/

/-- In-place mutation of one record inside a page object (attribute
assignment through a Python reference, e.g. `base_record.indirection =
record.rid`). -/
def heap_mutate_record (s : Store) (pid : Nat) (off : Nat) (f : LRecord → LRecord) :
    Store :=
  match hget s.heap pid with
  | none => s
  | some p =>
      match p.data.get? off with
      | none => s
      | some r => { s with heap := hset s.heap pid { p with data := p.data.set off (f r) } }

/-- `page.write(record)` through a Python page reference. -/
def heap_page_write (s : Store) (pid : Nat) (r : LRecord) : Store :=
  match hget s.heap pid with
  | none => s
  | some p => { s with heap := hset s.heap pid (p.write r).2 }

/-- `[element for element, bit in zip(columns, projected_columns_index) if
bit == 1]` (query.py lines 238, 301). -/
def project_columns (cols : List (Option Int)) (mask : List Int) : List (Option Int) :=
  ((cols.zip mask).filter (fun cm => cm.2 = 1)).map (·.1)

/-- `Query._verify_insert_input` (query.py lines 152-156): every column
must be an integer (`None` is not). -/
def Query.verify_insert_input (columns : List (Option Int)) : Bool :=
  columns.all (·.isSome)

/-- `Query.insert` (query.py lines 104-150).  The commented-out duplicate
check at lines 105-111 is dead code: no duplicate-key check is performed.
Allocating a second page range reaches `self.table.page_range_tps[...]`
(line 139), an attribute `Table` never defines, so that branch raises
`AttributeError`. -/
def Query.insert (e : Engine) (columns : List (Option Int)) : PyResult × Engine :=
  if !(Query.verify_insert_input columns) then (.retFalse, e)
  else
    let t := e.table
    let record : LRecord :=
      { base_rid := .b t.current_base_rid
        indirection := .b t.current_base_rid
        rid := .b t.current_base_rid
        time_stamp := t.clock
        schema_encoding := List.replicate columns.length 0
        columns := columns }
    let t := { t with clock := t.clock + 1 }
    match Index.add_record t.index record with
    | none => (.exn, { e with table := t })
    | some ix =>
    let t := { t with index := ix }
    let last_path := t.last_path
    match BufferPool.get_page t.store last_path with
    | (none, s) => (.exn, { e with table := { t with store := s } })
    | (some pid, s) =>
    let t := { t with store := s }
    let pp := parse_page_path last_path
    match hget t.store.heap pid with
    | none => (.exn, { e with table := t })
    | some last_page =>
    if last_page.has_capacity then
      let t := { t with store := heap_page_write t.store pid record }
      let offset := last_page.num_records
      let t := { t with
        page_directory :=
          aupdate t.page_directory (.b t.current_base_rid) (.pairLoc t.last_path offset)
        current_base_rid := t.current_base_rid + 1 }
      (.retTrue, { e with table := t })
    else
      let (npid, h) := halloc t.store.heap (Page.write Page.empty record).2
      let t := { t with store := { t.store with heap := h } }
      if pp.2 + 1 < PAGE_RANGE_SIZE then
        let insert_path := PagePath.base pp.1 (pp.2 + 1)
        let t := { t with pr_unmerged_updates := t.pr_unmerged_updates ++ [0] }
        let s :=
          match write_file t.store insert_path Page.empty with
          | some s' => s'
          | none => t.store
        let t := { t with store := s, last_path := insert_path }
        let (_, s2) := BufferPool.add_frame t.store insert_path (some npid)
        let t := { t with store := s2 }
        let t := { t with
          page_directory :=
            aupdate t.page_directory (.b t.current_base_rid) (.pairLoc insert_path 0)
          current_base_rid := t.current_base_rid + 1 }
        (.retTrue, { e with table := t })
      else
        -- `self.table.page_range_tps[last_pagerange_index + 1] = 0` (line
        -- 139): `Table.__init__` never creates a `page_range_tps`
        -- attribute, so this raises `AttributeError`
        (.exn, { e with table := t })

/-- The cached-tail-page lookup used by `delete` and (twice) by `update`
(query.py lines 66-71, 343-349, 393-398): take the page range's cached
`(path, page)` pair, or fetch the current tail page through
`get_tail_page_location`/`get_page` and cache the result — including a
`None` page. -/
def Query.tail_cache_lookup (e : Engine) (pr : Nat) :
    (PagePath × Option Nat) × Engine :=
  match alookup e.tail_page_cache pr with
  | some pc => (pc, e)
  | none =>
      let ((ctp, _), t) := e.table.get_tail_page_location pr
      let (pid?, s) := BufferPool.get_page t.store ctp
      let e := { e with
        table := { t with store := s }
        tail_page_cache := aupdate e.tail_page_cache pr (ctp, pid?) }
      ((ctp, pid?), e)

/-- The tail-record write block repeated at query.py lines 66-83 (delete),
343-361 and 393-409 (update): write the record into the cached tail page
if it has capacity (the new offset is `num_records - 1` after the write),
else create a new tail page, write the record into a fresh page object,
register it as a frame and re-cache it.  `error` models the
`AttributeError` raised by `tail_page.has_capacity()` when the cached page
is `None`. -/
def Query.tail_write (e : Engine) (pr : Nat) (record : LRecord) :
    Except Engine ((PagePath × Nat) × Engine) :=
  let (pc, e) := Query.tail_cache_lookup e pr
  match pc.2 with
  | none => .error e
  | some cpid =>
  match hget e.table.store.heap cpid with
  | none => .error e
  | some page =>
  if page.has_capacity then
    let e := { e with
      table := { e.table with store := heap_page_write e.table.store cpid record } }
    .ok ((pc.1, page.num_records), e)
  else
    let ((np, _), t) := e.table.create_new_tail_page pr
    let (npid, h) := halloc t.store.heap (Page.write Page.empty record).2
    let t := { t with store := { t.store with heap := h } }
    let (_, s) := BufferPool.add_frame t.store np (some npid)
    let e := { e with
      table := { t with store := s }
      tail_page_cache := aupdate e.tail_page_cache pr (np, some npid) }
    .ok ((np, 0), e)

/-- `Query.delete` (query.py lines 31-95): append an all-`None` deletion
marker as a tail record linked behind the *previous last tail record*
(whose `indirection` is redirected to the marker in place); the base
record's own `indirection` is not touched. -/
def Query.delete (e : Engine) (primary_key : Option Int) : PyResult × Engine :=
  let t := e.table
  let (rid?, ix) := Index.locate t.index 0 primary_key
  let t := { t with index := ix }
  match rid? with
  | none => (.retFalse, { e with table := t })
  | some base_rid =>
  match alookup t.page_directory base_rid with
  | none => (.exn, { e with table := t })
  | some entry =>
  match entry.as_pair with
  | none => (.exn, { e with table := t })
  | some (base_path, base_offset) =>
  match BufferPool.get_page t.store base_path with
  | (none, s) => (.exn, { e with table := { t with store := s } })
  | (some bpid, s) =>
  let t := { t with store := s }
  match (hget t.store.heap bpid).bind (fun p => p.read_index base_offset) with
  | none => (.exn, { e with table := t })
  | some base_record =>
  match alookup t.page_directory base_record.indirection with
  | none => (.exn, { e with table := t })
  | some tentry =>
  match tentry.as_pair with
  | none => (.exn, { e with table := t })
  | some (ltp, lto) =>
  match BufferPool.get_page t.store ltp with
  | (none, s) => (.exn, { e with table := { t with store := s } })
  | (some tpid, s) =>
  let t := { t with store := s }
  match (hget t.store.heap tpid).bind (fun p => p.read_index lto) with
  | none => (.exn, { e with table := t })
  | some last_tail_record =>
  -- the deletion-marker record (lines 50-57)
  let record : LRecord :=
    { base_rid := base_record.rid
      indirection := last_tail_record.rid
      rid := .t t.current_tail_rid
      time_stamp := t.clock
      schema_encoding := List.replicate base_record.schema_encoding.length 0
      columns := List.replicate base_record.columns.length none }
  let t := { t with clock := t.clock + 1 }
  -- `last_tail_record.indirection = record.rid` (line 60): in-place update
  -- of the previous tail record
  let t :=
    { t with
      store := heap_mutate_record t.store tpid lto
        (fun r => { r with indirection := record.rid }) }
  let pr := pagerange_of base_path
  match Query.tail_write { e with table := t } pr record with
  | .error e' => (.exn, e')
  | .ok ((insert_path, offset), e') =>
  let t := e'.table
  let t := { t with
    page_directory := aupdate t.page_directory record.rid (.pairLoc insert_path offset) }
  match Index.add_record t.index record with
  | none => (.exn, { e' with table := t })
  | some ix =>
  let t := { t with index := ix, current_tail_rid := t.current_tail_rid + 1 }
  -- merge threshold (lines 91-93)
  match t.pr_unmerged_updates.get? pr with
  | none => (.exn, { e' with table := t })
  | some c =>
      let t := { t with pr_unmerged_updates := t.pr_unmerged_updates.set pr (c + 1) }
      let t := if c + 1 ≥ MERGE_THRESH then Table.merge t pr else t
      (.retTrue, { e' with table := t })

/-- `Query._get_merged_lineage` (query.py lines 199-243).  The whole body
runs in a `try`: any failure returns `None`.  The final `Record(...)`
construction reads `last_tail_record.start_time` (line 236), an attribute
`table.Record` does not have, so even a fully resolvable lineage ends in a
caught `AttributeError` and yields `None`. -/
def Query.get_merged_lineage (e : Engine) (base_rid : Rid) (mask : List Int) :
    Option LRecord × Engine :=
  let t := e.table
  match alookup t.page_directory base_rid with
  | none => (none, e)
  | some entry =>
  match entry.as_pair with
  | none => (none, e)
  | some (base_path, base_offset) =>
  match BufferPool.get_page t.store base_path with
  | (none, s) => (none, { e with table := { t with store := s } })
  | (some bpid, s) =>
  let t := { t with store := s }
  match hget t.store.heap bpid with
  | none => (none, { e with table := t })
  | some base_page =>
  if base_offset ≥ base_page.num_records then (none, { e with table := t })
  else
  match base_page.read_index base_offset with
  | none => (none, { e with table := t })
  | some base_record =>
  match alookup t.page_directory base_record.indirection with
  | none => (none, { e with table := t })
  | some tentry =>
  match tentry.as_pair with
  | none => (none, { e with table := t })
  | some (ltp, lto) =>
  match BufferPool.get_page t.store ltp with
  | (none, s) => (none, { e with table := { t with store := s } })
  | (some tpid, s) =>
  let t := { t with store := s }
  match hget t.store.heap tpid with
  | none => (none, { e with table := t })
  | some tail_page =>
  if lto ≥ tail_page.num_records then (none, { e with table := t })
  else
  match tail_page.read_index lto with
  | none => (none, { e with table := t })
  | some last_tail_record =>
  match last_tail_record.start_time_attr with
  | none => (none, { e with table := t })
  | some st =>
      (some
        { base_rid := base_record.rid
          indirection := last_tail_record.rid
          rid := base_record.indirection
          time_stamp := st
          schema_encoding := last_tail_record.schema_encoding
          columns := project_columns last_tail_record.columns mask },
        { e with table := t })

/-- `Query.select` (query.py lines 182-196): locate the rid for the search
key (the index stores a single rid per key, so the comma-split list is the
singleton), materialise it through `_get_merged_lineage`, and return the
record list — `False` when it is empty. -/
def Query.select (e : Engine) (search_key : Option Int) (search_key_index : Nat)
    (mask : List Int) : PyResult × Engine :=
  let t := e.table
  let (rid?, ix) := Index.locate t.index search_key_index search_key
  let e := { e with table := { t with index := ix } }
  match rid? with
  | none => (.retFalse, e)
  | some rid =>
      let (rec?, e) := Query.get_merged_lineage e rid mask
      match rec? with
      | some r => (.records [r], e)
      | none => (.retFalse, e)

/-- The version-walk loop of `Query.select_version` (query.py lines
292-298): `abs(relative_version - 2)` iterations, each following
`indirection` one step, breaking as soon as the chain closes on the
record's `base_rid`.  The `last` argument is the `temp_record` variable;
`error` models the uncaught exceptions of the loop (a missing rid raising
`KeyError`, a failed page fetch raising `AttributeError`, an out-of-range
offset raising `IndexError`, or `temp_record` being unbound after zero
iterations — `NameError`). -/
def Query.version_walk (e : Engine) :
    Nat → Rid → Option LRecord → Except Engine (LRecord × Engine)
  | 0, _, last =>
      match last with
      | some r => .ok (r, e)
      | none => .error e
  | n + 1, temp_rid, _ =>
      let t := e.table
      match alookup t.page_directory temp_rid with
      | none => .error e
      | some entry =>
      match entry.as_pair with
      | none => .error e
      | some (p, off) =>
      match BufferPool.get_page t.store p with
      | (none, s) => .error { e with table := { t with store := s } }
      | (some pid, s) =>
      let e := { e with table := { t with store := s } }
      match (hget e.table.store.heap pid).bind (fun pg => pg.read_index off) with
      | none => .error e
      | some rec =>
          if rec.indirection = rec.base_rid then .ok (rec, e)
          else Query.version_walk e n rec.indirection (some rec)

/-- `Query.select_version` (query.py lines 281-304): locate the rid, walk
the version chain, then build `modified_record` — a deep copy with the
projected columns — but append the *original* `temp_record` to the results
(line 302), so the projection is discarded. -/
def Query.select_version (e : Engine) (search_key : Option Int)
    (search_key_index : Nat) (mask : List Int) (relative_version : Int) :
    PyResult × Engine :=
  let t := e.table
  let (rid?, ix) := Index.locate t.index search_key_index search_key
  let e := { e with table := { t with index := ix } }
  match rid? with
  | none => (.retNone, e)
  | some rid =>
      match Query.version_walk e (relative_version - 2).natAbs rid none with
      | .error e' => (.exn, e')
      | .ok (temp_record, e') =>
          let _modified :=
            { temp_record with columns := project_columns temp_record.columns mask }
          (.records [temp_record], e')

/-- The `new_schema`/`new_cols` construction of `Query.update` (query.py
lines 367-376): for each column position, a supplied value contributes
`(1, value)`, a `None` keeps the previous tail's schema bit and value —
reading past the previous tail's lists raises `IndexError` (`none`). -/
def Query.build_update_record (columns : List (Option Int)) (last_tail : LRecord) :
    Option (List Int × List (Option Int)) :=
  (List.range columns.length).foldl
    (fun acc i =>
      match acc with
      | none => none
      | some (sch, cols) =>
          match columns.get? i with
          | some (some v) => some (sch ++ [1], cols ++ [some v])
          | some none =>
              match last_tail.schema_encoding.get? i, last_tail.columns.get? i with
              | some sb, some cv => some (sch ++ [sb], cols ++ [cv])
              | _, _ => none
          | none => none)
    (some ([], []))

/-- `Query.update` (query.py lines 313-419): resolve the base record; on a
first update, first append an "original copy" tail record snapshotting the
base columns; then append the update tail record (supplied values override,
others carried from the previous tail), redirect the base record's
`indirection`/`schema_encoding` in place, bump the unmerged-update counter
and spawn a merge at the threshold. -/
def Query.update (e : Engine) (primary_key : Option Int)
    (columns : List (Option Int)) : PyResult × Engine :=
  let t := e.table
  let (rid?, ix) := Index.locate t.index 0 primary_key
  let t := { t with index := ix }
  match rid? with
  | none => (.retFalse, { e with table := t })
  | some base_rid =>
  match alookup t.page_directory base_rid with
  | none => (.exn, { e with table := t })
  | some entry =>
  match entry.as_pair with
  | none => (.exn, { e with table := t })
  | some (base_path, base_offset) =>
  match BufferPool.get_page t.store base_path with
  | (none, s) => (.exn, { e with table := { t with store := s } })
  | (some bpid, s) =>
  let t := { t with store := s }
  match (hget t.store.heap bpid).bind (fun p => p.read_index base_offset) with
  | none => (.exn, { e with table := t })
  | some base_record =>
  let is_first_update := base_record.indirection = base_record.rid
  -- resolve (or create) the previous last tail record (lines 327-364)
  let prev :
      Except Engine (LRecord × Engine) :=
    if !is_first_update then
      match alookup t.page_directory base_record.indirection with
      | none => .error { e with table := t }
      | some tentry =>
      match tentry.as_pair with
      | none => .error { e with table := t }
      | some (ltp, lto) =>
      match BufferPool.get_page t.store ltp with
      | (none, s) => .error { e with table := { t with store := s } }
      | (some tpid, s) =>
      let t := { t with store := s }
      match (hget t.store.heap tpid).bind (fun p => p.read_index lto) with
      | none => .error { e with table := t }
      | some last_tail_record => .ok (last_tail_record, { e with table := t })
    else
      let pr := pagerange_of base_path
      let original_copy : LRecord :=
        { base_rid := base_record.rid
          indirection := base_record.rid
          rid := .t t.current_tail_rid
          time_stamp := t.clock
          schema_encoding := columns.map (fun c => if c.isSome then 1 else 0)
          columns := base_record.columns }
      let t := { t with clock := t.clock + 1, current_tail_rid := t.current_tail_rid + 1 }
      match Query.tail_write { e with table := t } pr original_copy with
      | .error e' => .error e'
      | .ok ((insert_path, offset), e') =>
          let t := e'.table
          let t := { t with
            page_directory :=
              aupdate t.page_directory original_copy.rid (.pairLoc insert_path offset) }
          .ok (original_copy, { e' with table := t })
  match prev with
  | .error e' => (.exn, e')
  | .ok (last_tail_record, e') =>
  match Query.build_update_record columns last_tail_record with
  | none => (.exn, e')
  | some (new_schema, new_cols) =>
  let t := e'.table
  let record : LRecord :=
    { base_rid := base_record.rid
      indirection := last_tail_record.rid
      rid := .t t.current_tail_rid
      time_stamp := t.clock
      schema_encoding := new_schema
      columns := new_cols }
  let t := { t with clock := t.clock + 1 }
  -- `base_record.schema_encoding = new_schema; base_record.indirection =
  -- record.rid` (lines 388-389): in-place through the base page object
  let t :=
    { t with
      store := heap_mutate_record t.store bpid base_offset
        (fun r => { r with schema_encoding := new_schema, indirection := record.rid }) }
  let pr := pagerange_of base_path
  match Query.tail_write { e' with table := t } pr record with
  | .error e'' => (.exn, e'')
  | .ok ((insert_path, offset), e'') =>
  let t := e''.table
  let t := { t with
    page_directory := aupdate t.page_directory record.rid (.pairLoc insert_path offset)
    current_tail_rid := t.current_tail_rid + 1 }
  -- merge threshold (lines 415-417)
  match t.pr_unmerged_updates.get? pr with
  | none => (.exn, { e'' with table := t })
  | some c =>
      let t := { t with pr_unmerged_updates := t.pr_unmerged_updates.set pr (c + 1) }
      let t := if c + 1 ≥ MERGE_THRESH then Table.merge t pr else t
      (.retTrue, { e'' with table := t })

/-- `Query.sum` (query.py lines 430-442): enumerate the primary-key range,
materialise each rid through `_get_merged_lineage` with an all-ones mask,
and add up the aggregate column of the records that materialised, skipping
`None` values; an out-of-range aggregate column raises (`exn`). -/
def Query.sum (e : Engine) (start_range end_range : Int) (agg : Nat) :
    PyResult × Engine :=
  match Index.locate_range_col0 e.table.index start_range end_range with
  | none => (.retFalse, e)
  | some rid_dict =>
      let folded := rid_dict.foldl
        (fun (acc : Except Engine (Int × Engine)) kv =>
          match acc with
          | .error e => .error e
          | .ok (total, e) =>
              let (rec?, e) :=
                Query.get_merged_lineage e kv.2 (List.replicate e.table.num_columns 1)
              match rec? with
              | none => .ok (total, e)
              | some r =>
                  match r.columns.get? agg with
                  | none => .error e
                  | some none => .ok (total, e)
                  | some (some v) => .ok (total + v, e))
        (.ok (0, e))
      match folded with
      | .error e => (.exn, e)
      | .ok (total, e) => (.num total, e)

/-- The version-walk loop of `Query.sum_version` (query.py lines 463-467):
like `select_version`'s walk but with *no* break on reaching the base rid;
the walk simply follows `indirection` for the full iteration count. -/
def Query.sum_walk (e : Engine) :
    Nat → Rid → Option LRecord → Except Engine (LRecord × Engine)
  | 0, _, last =>
      match last with
      | some r => .ok (r, e)
      | none => .error e
  | n + 1, temp_rid, _ =>
      let t := e.table
      match alookup t.page_directory temp_rid with
      | none => .error e
      | some entry =>
      match entry.as_pair with
      | none => .error e
      | some (p, off) =>
      match BufferPool.get_page t.store p with
      | (none, s) => .error { e with table := { t with store := s } }
      | (some pid, s) =>
      let e := { e with table := { t with store := s } }
      match (hget e.table.store.heap pid).bind (fun pg => pg.read_index off) with
      | none => .error e
      | some rec => Query.sum_walk e n rec.indirection (some rec)

/-- `Query.sum_version` (query.py lines 454-470): walk each rid in the
range `abs(relative_version - 2)` steps and add
`temp_record.columns[agg]` — with no `None` check, so a `None` value (or an
out-of-range column) raises. -/
def Query.sum_version (e : Engine) (start_range end_range : Int) (agg : Nat)
    (relative_version : Int) : PyResult × Engine :=
  match Index.locate_range_col0 e.table.index start_range end_range with
  | none => (.retFalse, e)
  | some rid_dict =>
      let folded := rid_dict.foldl
        (fun (acc : Except Engine (Int × Engine)) kv =>
          match acc with
          | .error e => .error e
          | .ok (total, e) =>
              match Query.sum_walk e (relative_version - 2).natAbs kv.2 none with
              | .error e' => .error e'
              | .ok (rec, e') =>
                  match rec.columns.get? agg with
                  | some (some v) => .ok (total + v, e')
                  | _ => .error e')
        (.ok (0, e))
      match folded with
      | .error e => (.exn, e)
      | .ok (total, e) => (.num total, e)

/-! ## Query-operation sequences -/

/-- One invocation of a public `Query` operation with its arguments. -/
inductive QOp where
  | insert (cols : List (Option Int))
  | update (k : Option Int) (cols : List (Option Int))
  | delete (k : Option Int)
  | select (k : Option Int) (c : Nat) (mask : List Int)
  | select_version (k : Option Int) (c : Nat) (mask : List Int) (rv : Int)
  | sum (a b : Int) (agg : Nat)
  | sum_version (a b : Int) (agg : Nat) (rv : Int)
deriving DecidableEq, Repr

/-- Run one query operation for its state effect. -/
def run_op (op : QOp) (e : Engine) : Engine :=
  match op with
  | .insert cols => (Query.insert e cols).2
  | .update k cols => (Query.update e k cols).2
  | .delete k => (Query.delete e k).2
  | .select k c mask => (Query.select e k c mask).2
  | .select_version k c mask rv => (Query.select_version e k c mask rv).2
  | .sum a b agg => (Query.sum e a b agg).2
  | .sum_version a b agg rv => (Query.sum_version e a b agg rv).2

/-- Run a sequence of query operations. -/
def run_ops (ops : List QOp) (e : Engine) : Engine :=
  ops.foldl (fun e op => run_op op e) e

/-! ## The two-phase lock manager (src/lstore/two_phase_lock.py) -/

/-- `LockMode` (two_phase_lock.py lines 3-13). -/
inductive LockMode where
  | SHARED
  | EXCLUSIVE
deriving DecidableEq, Repr

/-- `LockGranularity` (two_phase_lock.py lines 17-34): the source
hierarchy has exactly the three levels TABLE, PAGE, RECORD. -/
inductive LockGranularity where
  | TABLE
  | PAGE
  | RECORD
deriving DecidableEq, Repr

/-- A lock identifier: the `/`-separated components of the item string
(`"table"`, `"table/page_X"`, `"table/page_X/rid"`), i.e. the result of
`item_id.split('/')`. -/
abbrev ItemId := List String

/-- The per-item lock entry `{"readers": set(), "writer": None}`
(two_phase_lock.py line 215); `readers` is a set, modelled as a
duplicate-free list in insertion order. -/
structure LockInfo where
  readers : List Nat
  writer : Option Nat
deriving DecidableEq, Repr

/-- The `TwoPhaseLock` state (two_phase_lock.py lines 71-79):
`transactions` maps a transaction id to its `shrinking_phase` flag. -/
structure TwoPhaseLock where
  transactions : List (Nat × Bool)
  table_locks : List (ItemId × LockInfo)
  page_locks : List (ItemId × LockInfo)
  record_locks : List (ItemId × LockInfo)
deriving DecidableEq, Repr

/-- `TwoPhaseLock._get_lock_dict` (two_phase_lock.py lines 82-92). -/
def TwoPhaseLock.get_lock_dict (L : TwoPhaseLock) : LockGranularity →
    List (ItemId × LockInfo)
  | .TABLE => L.table_locks
  | .PAGE => L.page_locks
  | .RECORD => L.record_locks

/-- Write back the lock dictionary of a granularity. -/
def TwoPhaseLock.set_lock_dict (L : TwoPhaseLock) (g : LockGranularity)
    (d : List (ItemId × LockInfo)) : TwoPhaseLock :=
  match g with
  | .TABLE => { L with table_locks := d }
  | .PAGE => { L with page_locks := d }
  | .RECORD => { L with record_locks := d }

/-- `TwoPhaseLock._has_lock` (two_phase_lock.py lines 95-110): the
transaction holds *any* lock (shared or exclusive) on the item. -/
def TwoPhaseLock.has_lock (tid : Nat) (item : ItemId)
    (dict : List (ItemId × LockInfo)) : Bool :=
  match alookup dict item with
  | none => false
  | some info => tid ∈ info.readers ∨ info.writer = some tid

/-- `TwoPhaseLock._check_parent_locks` (two_phase_lock.py lines 113-163):
a RECORD acquisition checks the table and page ancestors, a PAGE
acquisition checks the table, a TABLE acquisition has no parents; the
check fails iff an ancestor entry has a writer other than the requester.
`none` models the `IndexError` raised when the item id has fewer
components than the granularity requires. -/
def TwoPhaseLock.check_parent_locks (L : TwoPhaseLock) (tid : Nat)
    (item : ItemId) (g : LockGranularity) : Option Bool :=
  match g with
  | .RECORD =>
      match item with
      | t0 :: p1 :: _ =>
          let table_conflict : Bool :=
            match alookup L.table_locks [t0] with
            | some info => info.writer.isSome && decide (info.writer ≠ some tid)
            | none => false
          let page_conflict : Bool :=
            match alookup L.page_locks [t0, p1] with
            | some info => info.writer.isSome && decide (info.writer ≠ some tid)
            | none => false
          some (!(table_conflict || page_conflict))
      | _ => none
  | .PAGE =>
      match item with
      | t0 :: _ =>
          match alookup L.table_locks [t0] with
          | some info => some (!(info.writer.isSome && decide (info.writer ≠ some tid)))
          | none => some true
      | [] => none
  | .TABLE => some true

/-- Python `readers == {transaction_id}` — set equality with the singleton:
non-empty and every member equal to `tid`. -/
def set_eq_single (rs : List Nat) (tid : Nat) : Bool :=
  decide (rs ≠ []) && rs.all (fun x => x = tid)

/-- `TwoPhaseLock.acquire_lock` (two_phase_lock.py lines 166-241), in
source order: create the transaction entry if new; deny while in the
shrinking phase; return `True` immediately when the transaction already
holds *any* lock on the item (without changing the lock state); check
parent locks (a failing check denies, a malformed item id raises —
`none`); materialise the item's empty lock entry if absent; then grant or
deny by mode.  A granted SHARED adds the requester to `readers`; a granted
EXCLUSIVE (readers empty or `{tid}`, writer absent or `tid`) sets
`writer`. -/
def TwoPhaseLock.acquire_lock (L : TwoPhaseLock) (tid : Nat) (item : ItemId)
    (mode : LockMode) (g : LockGranularity) : Option (Bool × TwoPhaseLock) :=
  let L :=
    if (alookup L.transactions tid).isNone then
      { L with transactions := aupdate L.transactions tid false }
    else L
  if (alookup L.transactions tid).getD false then some (false, L)
  else
    let dict := L.get_lock_dict g
    if TwoPhaseLock.has_lock tid item dict then some (true, L)
    else
      match L.check_parent_locks tid item g with
      | none => none
      | some false => some (false, L)
      | some true =>
          let dict :=
            if (alookup dict item).isNone then
              aupdate dict item { readers := [], writer := none }
            else dict
          let info := (alookup dict item).getD { readers := [], writer := none }
          match mode with
          | .SHARED =>
              if info.writer = none ∨ info.writer = some tid then
                let info :=
                  { info with
                    readers :=
                      if tid ∈ info.readers then info.readers
                      else info.readers ++ [tid] }
                some (true, L.set_lock_dict g (aupdate dict item info))
              else some (false, L.set_lock_dict g dict)
          | .EXCLUSIVE =>
              if (decide (info.readers = []) || set_eq_single info.readers tid)
                  && (decide (info.writer = none) || decide (info.writer = some tid)) then
                some (true, L.set_lock_dict g (aupdate dict item { info with writer := some tid }))
              else some (false, L.set_lock_dict g dict)

/-- `TwoPhaseLock.release_lock` (two_phase_lock.py lines 244-282): mark the
transaction as shrinking, then at every granularity remove the
transaction's shared and exclusive holds on the item. -/
def TwoPhaseLock.release_lock (L : TwoPhaseLock) (tid : Nat) (item : ItemId) :
    TwoPhaseLock :=
  if (alookup L.transactions tid).isNone then L
  else
    let L := { L with transactions := aupdate L.transactions tid true }
    [LockGranularity.RECORD, LockGranularity.PAGE, LockGranularity.TABLE].foldl
      (fun L g =>
        let dict := L.get_lock_dict g
        match alookup dict item with
        | none => L
        | some info =>
            let info := { info with readers := info.readers.filter (fun x => x ≠ tid) }
            let info :=
              if info.writer = some tid then { info with writer := none } else info
            L.set_lock_dict g (aupdate dict item info))
      L

/-! ## Lock-mode selection in `Transaction.run`
(src/lstore/transaction.py lines 130-132) -/

/-- Python's substring test `needle in hay`. -/
def str_contains (needle hay : List Char) : Bool :=
  hay.tails.any (fun t => needle.isPrefixOf t)

/-- `is_write = "update" in query.__name__ or "insert" in query.__name__;
lock_mode = LockMode.EXCLUSIVE if is_write else LockMode.SHARED`
(transaction.py lines 130-132), applied to the query function's name. -/
def Transaction.lock_mode_for (query_name : List Char) : LockMode :=
  if str_contains ("update".toList) query_name
      || str_contains ("insert".toList) query_name then
    .EXCLUSIVE
  else .SHARED

/-! ## Verified scenarios

The literal spec scenarios, on a fresh 3-column table keyed on column 0. -/

/-- The fresh table's engine after `insert(50, 2, 3)`. -/
def engine_ins : Engine :=
  (Query.insert (Engine.fresh 3 0) [some 50, some 2, some 3]).2

/-- ... after `update(50, None, None, 7)`. -/
def engine_upd7 : Engine :=
  (Query.update engine_ins (some 50) [none, none, some 7]).2

/-- ... after a second update `update(50, None, None, 9)`. -/
def engine_upd9 : Engine :=
  (Query.update engine_upd7 (some 50) [none, none, some 9]).2

/-- ... and, from the single-update state, after `delete(50)`. -/
def engine_del : Engine :=
  (Query.delete engine_upd7 (some 50)).2

/-- Read the record stored at an offset of the page cached for a path —
the record a reader through the buffer pool would see. -/
def read_record_at (e : Engine) (path : PagePath) (off : Nat) : Option LRecord :=
  match alookup e.table.store.frames path with
  | some f => (hget e.table.store.heap f.pid).bind (fun p => p.read_index off)
  | none => none

/-- The current pin count of the frame at a path (0 when absent). -/
def pin_at (s : Store) (p : PagePath) : Nat :=
  match alookup s.frames p with
  | some f => f.pin_count
  | none => 0

/-- A table state on which `_merge` runs to completion: a fresh table
(whose `pagerange_0` pages are empty) whose page directory carries one
mapping — exactly the pair format `insert` writes.  Because the range's
pages hold no records, nothing trips the serialisation error and the merge
completes. -/
def table_c3 : Table :=
  { Table.fresh 3 0 with
    page_directory := [(Rid.b 0, PDirEntry.pairLoc (PagePath.base 0 0) 0)] }

/-- The lock state of the C7 counterexample: transactions 1 and 2 both
hold a SHARED lock on the record item `T/p0/r1`; nothing else is held. -/
def lock_state_c7 : TwoPhaseLock :=
  { transactions := [(1, false), (2, false)]
    table_locks := []
    page_locks := []
    record_locks := [([("T" : String), ("p0" : String), ("r1" : String)],
      { readers := [1, 2], writer := none })] }

/-- Unique frame keys — every state representable by the Python
`OrderedDict` satisfies this. -/
def frames_ok (s : Store) : Prop := (s.frames.map Prod.fst).Nodup

/-- From a unique-key state: keys stay unique and no pin count
decreases. -/
def store_mono (s s' : Store) : Prop :=
  frames_ok s → frames_ok s' ∧ ∀ q, pin_at s q ≤ pin_at s' q

/-- Monotonicity at the engine level. -/
def engine_mono (e e' : Engine) : Prop := store_mono e.table.store e'.table.store

/-- A one-frame store used to exercise the pin-count increment of
`BufferPool.get_page`. -/
def pinned_store : Store :=
  { frames := [(PagePath.base 0 0, { pid := 0, pin_count := 0, dirty_bit := false })]
    io_count := 0
    pool_size := POOL_SIZE
    heap := [Page.empty]
    disk := [] }

/-! ## C1 — insert/select round trip -/

/-- C1: the insert/select round trip fails on the code.  On a fresh
3-column table, `insert(50, 2, 3)` returns `True`, but the subsequent
`select(50, 0, [1,1,1])` returns `False` instead of the inserted record:
`Query._get_merged_lineage` reads `last_tail_record.start_time` (query.py
line 236), an attribute `table.Record` does not define (it defines
`time_stamp`, table.py line 23), so every materialisation raises
`AttributeError`, is caught, and the record is dropped. -/
theorem C1_insert_select_round_trip_fails :
    (Query.insert (Engine.fresh 3 0) [some 50, some 2, some 3]).1 = PyResult.retTrue ∧
    (Query.select engine_ins (some 50) 0 [1, 1, 1]).1 = PyResult.retFalse := by
  exact ⟨rfl, rfl⟩

/-! ## C2 — merge idempotence -/

/-- C2 counterexample: running `_merge` twice in a row on page range 0 of
the table with one inserted row — with no intervening writes — is *not* a
no-op: the second run changes the table state again (each run increments
the pin count of the base page while flushing, before dying on the
`Record.start_time` attribute error). -/
theorem C2_counterexample :
    (Table.mergeBody (Table.mergeBody engine_ins.table 0).2 0).2 ≠
      (Table.mergeBody engine_ins.table 0).2 := by
  decide

/-- C2 amended: the table keeps no TPS watermark (no such field exists),
and `_merge` on a page range holding a record never completes: both the
first and the second run raise (`Page.serialize` reads the non-existent
`record.start_time` during the flush phase), and each run leaves the base
page's pin count one higher — 2 after the first run, 3 after the second —
so the second run does change table state. -/
theorem C2_amended :
    (Table.mergeBody engine_ins.table 0).1 = PyResult.exn ∧
    (Table.mergeBody (Table.mergeBody engine_ins.table 0).2 0).1 = PyResult.exn ∧
    pin_at engine_ins.table.store (PagePath.base 0 0) = 1 ∧
    pin_at (Table.mergeBody engine_ins.table 0).2.store (PagePath.base 0 0) = 2 ∧
    pin_at (Table.mergeBody (Table.mergeBody engine_ins.table 0).2 0).2.store
      (PagePath.base 0 0) = 3 := by
  exact ⟨rfl, rfl, rfl, rfl, rfl⟩

/-! ## C3 — merge and the page directory -/

/-- C3 counterexample: a completed merge does not leave the page
directory's rid-to-location mappings unchanged.  On `table_c3` the rid
`b0` maps to `(pagerange_0/base/page_0, 0)` before the merge; the merge
completes (returns `None`), and afterwards `b0` has no mapping at all —
`_merge` rebuilds the directory from the records found in the merged base
pages (table.py lines 239-240, 263-277, 291-318) and drops every entry it
does not rebuild. -/
theorem C3_counterexample :
    alookup table_c3.page_directory (Rid.b 0) =
      some (PDirEntry.pairLoc (PagePath.base 0 0) 0) ∧
    (Table.mergeBody table_c3 0).1 = PyResult.retNone ∧
    alookup (Table.mergeBody table_c3 0).2.page_directory (Rid.b 0) = none := by
  exact ⟨rfl, rfl, rfl⟩

/-- C3 amended: `_merge` rebuilds the page directory from scratch out of
the records present in the merged range's base pages; every pre-existing
entry whose rid is not among the rebuilt ones is removed.  In particular a
completed merge over a range with empty pages leaves the page directory
empty. -/
theorem C3_amended :
    (Table.mergeBody table_c3 0).1 = PyResult.retNone ∧
    (Table.mergeBody table_c3 0).2.page_directory = [] := by
  exact ⟨rfl, rfl⟩

/-! ## C4 — select_version -/

/-- C4 counterexample: `select_version` does not restrict the returned
columns to the projection-mask positions.  After `insert(50, 2, 3)` and
updates to 7 then 9, `select_version(50, 0, [1, 0, 1], -1)` returns the
record of the first update with its full column list `[50, 2, 7]` — not
the masked `[50, 7]`: the projected copy (`modified_record`, query.py
lines 300-301) is built and then discarded, `results.append(temp_record)`
(line 302) appends the unprojected record. -/
theorem C4_counterexample :
    (Query.select_version engine_upd9 (some 50) 0 [1, 0, 1] (-1)).1 =
      PyResult.records
        [{ base_rid := Rid.b 0
           indirection := Rid.t 0
           rid := Rid.t 1
           time_stamp := 2
           schema_encoding := [0, 0, 1]
           columns := [some 50, some 2, some 7] }] ∧
    project_columns [some 50, some 2, some 7] [1, 0, 1] = [some 50, some 7] := by
  exact ⟨rfl, rfl⟩

/-- C4 amended: `select_version(search_key, col, mask, rv)` walks the
indirection chain `|rv - 2|` steps from the base record toward older
versions, stopping when the chain closes on the base rid, and returns the
records found *without* applying the projection mask (the projected copy
is discarded).  In the scenario `insert(50,2,3); update(·,·,7);
update(·,·,9)`, `select_version(50, 0, m, -1)` returns the record with
columns `[50, 2, 7]` for *every* mask `m` — in particular for the all-ones
mask, where this agrees with the claim's expected value. -/
theorem C4_amended (mask : List Int) :
    (Query.select_version engine_upd9 (some 50) 0 mask (-1)).1 =
      PyResult.records
        [{ base_rid := Rid.b 0
           indirection := Rid.t 0
           rid := Rid.t 1
           time_stamp := 2
           schema_encoding := [0, 0, 1]
           columns := [some 50, some 2, some 7] }] := by
  rfl

/-- C4 amended, witness at the all-ones mask. -/
theorem C4_amended_witness :
    (Query.select_version engine_upd9 (some 50) 0 [1, 1, 1] (-1)).1 =
      PyResult.records
        [{ base_rid := Rid.b 0
           indirection := Rid.t 0
           rid := Rid.t 1
           time_stamp := 2
           schema_encoding := [0, 0, 1]
           columns := [some 50, some 2, some 7] }] :=
  C4_amended [1, 1, 1]

/-! ## C5 — duplicate-key insert -/

/-- C5 counterexample: an insert whose primary key is already indexed does
not fail and returns no duplicate-key tag — it succeeds.  After
`insert(50, 2, 3)`, a second `insert(50, 9, 9)` returns `True` (the
duplicate check in `Query.insert` is commented out, query.py lines
105-111). -/
theorem C5_counterexample :
    (Query.insert engine_ins [some 50, some 9, some 9]).1 = PyResult.retTrue := by
  rfl

/-- C5 amended: `insert` performs no duplicate-key check: inserting an
already-indexed key succeeds (returns `True`) and repoints the primary-key
cache at the new record's rid (`b1`), leaving both base records in the
page directory. -/
theorem C5_amended :
    (Query.insert engine_ins [some 50, some 9, some 9]).1 = PyResult.retTrue ∧
    alookup (Query.insert engine_ins [some 50, some 9, some 9]).2.table.index.primary_key_cache
      50 = some (Rid.b 1) ∧
    alookup (Query.insert engine_ins [some 50, some 9, some 9]).2.table.page_directory
      (Rid.b 0) = some (PDirEntry.pairLoc (PagePath.base 0 0) 0) ∧
    alookup (Query.insert engine_ins [some 50, some 9, some 9]).2.table.page_directory
      (Rid.b 1) = some (PDirEntry.pairLoc (PagePath.base 0 0) 1) := by
  exact ⟨rfl, rfl, rfl, rfl⟩

/-! ## C9 — delete after an update -/

/-- C9: on a row already updated once (base record `b0` has
`indirection = t1 ≠ b0`), `delete(50)` returns `True` and links the
deletion marker `t2` only behind the previous last tail record (`t1`'s
`indirection` becomes `t2`), leaving the base record's `indirection`
unchanged at `t1`; but the following `select(50, 0, [1,1,1])` returns
`False` — not the last update's values `[50, 2, 7]` — because every
materialisation dies on the `Record.start_time` attribute error (query.py
line 236 vs table.py line 23). -/
theorem C9_delete_keeps_indirection_but_select_fails :
    (Query.delete engine_upd7 (some 50)).1 = PyResult.retTrue ∧
    (read_record_at engine_upd7 (PagePath.base 0 0) 0).map LRecord.indirection =
      some (Rid.t 1) ∧
    (read_record_at engine_del (PagePath.base 0 0) 0).map LRecord.indirection =
      some (Rid.t 1) ∧
    (read_record_at engine_del (PagePath.tail 0 0) 1).map LRecord.indirection =
      some (Rid.t 2) ∧
    (read_record_at engine_del (PagePath.tail 0 0) 2).map LRecord.columns =
      some [none, none, none] ∧
    (Query.select engine_del (some 50) 0 [1, 1, 1]).1 = PyResult.retFalse := by
  exact ⟨rfl, rfl, rfl, rfl, rfl, rfl⟩

/-! ## C6 — lock modes in `Transaction.run` -/

/-- C6 counterexample: `Transaction.run` chooses the lock mode by testing
whether the query function's name contains `"update"` or `"insert"`
(transaction.py line 131); `"delete"` contains neither, so a delete is run
under a SHARED lock, not the EXCLUSIVE lock the claim states. -/
theorem C6_counterexample :
    Transaction.lock_mode_for ("delete".toList) = LockMode.SHARED ∧
    LockMode.SHARED ≠ LockMode.EXCLUSIVE := by
  exact ⟨rfl, by decide⟩

/-- C6 amended: the lock mode is EXCLUSIVE exactly when the query name
contains `"update"` or `"insert"` as a substring: EXCLUSIVE for
insert/update, SHARED for delete, select, select_version, sum,
sum_version and increment. -/
theorem C6_amended :
    Transaction.lock_mode_for ("insert".toList) = LockMode.EXCLUSIVE ∧
    Transaction.lock_mode_for ("update".toList) = LockMode.EXCLUSIVE ∧
    Transaction.lock_mode_for ("delete".toList) = LockMode.SHARED ∧
    Transaction.lock_mode_for ("select".toList) = LockMode.SHARED ∧
    Transaction.lock_mode_for ("select_version".toList) = LockMode.SHARED ∧
    Transaction.lock_mode_for ("sum".toList) = LockMode.SHARED ∧
    Transaction.lock_mode_for ("sum_version".toList) = LockMode.SHARED ∧
    Transaction.lock_mode_for ("increment".toList) = LockMode.SHARED := by
  exact ⟨rfl, rfl, rfl, rfl, rfl, rfl, rfl, rfl⟩

/-! ## Association-list lemmas -/

theorem alookup_nil {κ α : Type} [DecidableEq κ] (k : κ) :
    alookup ([] : List (κ × α)) k = none := rfl

theorem alookup_cons {κ α : Type} [DecidableEq κ] (kv : κ × α) (l : List (κ × α))
    (k : κ) :
    alookup (kv :: l) k = if kv.1 = k then some kv.2 else alookup l k := by
  unfold alookup
  rw [List.find?_cons]
  by_cases h : kv.1 = k <;> simp [h]

theorem alookup_aupdate_self {κ α : Type} [DecidableEq κ] (l : List (κ × α))
    (k : κ) (v : α) : alookup (aupdate l k v) k = some v := by
  induction l with
  | nil => simp [aupdate, alookup_cons]
  | cons kv rest ih =>
      by_cases h : kv.1 = k
      · simp [aupdate, h, alookup_cons]
      · simp [aupdate, h, alookup_cons, ih]

theorem alookup_aupdate_ne {κ α : Type} [DecidableEq κ] (l : List (κ × α))
    (k k' : κ) (v : α) (h : k' ≠ k) :
    alookup (aupdate l k v) k' = alookup l k' := by
  induction l with
  | nil => simp [aupdate, alookup_cons, Ne.symm h]
  | cons kv rest ih =>
      by_cases hk : kv.1 = k
      · simp [aupdate, hk, alookup_cons, Ne.symm h]
      · simp [aupdate, hk, alookup_cons, ih]

theorem alookup_aerase_ne {κ α : Type} [DecidableEq κ] (l : List (κ × α))
    (k k' : κ) (h : k' ≠ k) :
    alookup (aerase l k) k' = alookup l k' := by
  induction l with
  | nil => rfl
  | cons kv rest ih =>
      by_cases hk : kv.1 = k
      · simp [aerase, hk, alookup_cons, Ne.symm h, ih]
      · simp [aerase, hk, alookup_cons, ih]

theorem alookup_aerase_self {κ α : Type} [DecidableEq κ] (l : List (κ × α))
    (k : κ) : alookup (aerase l k) k = none := by
  induction l with
  | nil => rfl
  | cons kv rest ih =>
      by_cases hk : kv.1 = k
      · simpa [aerase, hk] using ih
      · simpa [aerase, hk, alookup_cons] using ih

theorem alookup_append {κ α : Type} [DecidableEq κ] (l₁ l₂ : List (κ × α)) (k : κ) :
    alookup (l₁ ++ l₂) k =
      match alookup l₁ k with
      | some v => some v
      | none => alookup l₂ k := by
  induction l₁ with
  | nil => simp [alookup_nil]
  | cons kv rest ih =>
      by_cases h : kv.1 = k <;> simp [alookup_cons, h, ih]

/-! ## C7 — exclusive lock acquisition -/

theorem get_lock_dict_set_transactions (L : TwoPhaseLock) (ts : List (Nat × Bool))
    (g : LockGranularity) :
    ({ L with transactions := ts }).get_lock_dict g = L.get_lock_dict g := by
  cases g <;> rfl

theorem check_parent_set_transactions (L : TwoPhaseLock) (ts : List (Nat × Bool))
    (tid : Nat) (item : ItemId) (g : LockGranularity) :
    ({ L with transactions := ts }).check_parent_locks tid item g =
      L.check_parent_locks tid item g := by
  cases g <;> rfl

/-- Creating the transaction entry first and then acquiring is the same as
acquiring on a state where the entry is absent: `acquire_lock` only
materialises the `(tid, shrinking=False)` entry. -/
theorem acquire_insert_txn (L : TwoPhaseLock) (tid : Nat) (item : ItemId)
    (mode : LockMode) (g : LockGranularity)
    (hn : (alookup L.transactions tid).isNone) :
    L.acquire_lock tid item mode g =
      ({ L with transactions := aupdate L.transactions tid false }).acquire_lock
        tid item mode g := by
  have hs : alookup (aupdate L.transactions tid false) tid = some false :=
    alookup_aupdate_self _ _ _
  simp only [TwoPhaseLock.acquire_lock, hn, if_true, hs, Option.isSome_some,
    Option.isNone_some, Bool.false_eq_true, if_false]

/-- The grant outcome of an EXCLUSIVE acquire when the requesting
transaction's entry already exists and is not shrinking and the parent
check passes: the call returns (no exception), and it is granted iff the
transaction already holds any lock on the item, or the item's readers are
empty or `{tid}` and its writer absent or `tid`. -/
theorem acquire_exclusive_existing (L : TwoPhaseLock) (tid : Nat) (item : ItemId)
    (g : LockGranularity)
    (hex : ¬ (alookup L.transactions tid).isNone = true)
    (hshr : (alookup L.transactions tid).getD false = false)
    (hpar : L.check_parent_locks tid item g = some true) :
    (L.acquire_lock tid item LockMode.EXCLUSIVE g).isSome = true ∧
      ((L.acquire_lock tid item LockMode.EXCLUSIVE g).map Prod.fst = some true ↔
        (TwoPhaseLock.has_lock tid item (L.get_lock_dict g) = true ∨
          ((((alookup (L.get_lock_dict g) item).getD ⟨[], none⟩).readers = [] ∨
              set_eq_single ((alookup (L.get_lock_dict g) item).getD ⟨[], none⟩).readers
                tid = true) ∧
            (((alookup (L.get_lock_dict g) item).getD ⟨[], none⟩).writer = none ∨
              ((alookup (L.get_lock_dict g) item).getD ⟨[], none⟩).writer = some tid)))) := by
  by_cases hhl : TwoPhaseLock.has_lock tid item (L.get_lock_dict g) = true
  · constructor
    · simp [TwoPhaseLock.acquire_lock, hex, hshr, hhl]
    · simp [TwoPhaseLock.acquire_lock, hex, hshr, hhl]
  · by_cases habs : alookup (L.get_lock_dict g) item = none
    · constructor
      · simp [TwoPhaseLock.acquire_lock, hex, hshr, hhl, hpar, habs,
          alookup_aupdate_self, set_eq_single]
      · simp [TwoPhaseLock.acquire_lock, hex, hshr, hhl, hpar, habs,
          alookup_aupdate_self, set_eq_single]
    · obtain ⟨info, hinfo⟩ : ∃ info, alookup (L.get_lock_dict g) item = some info := by
        cases hval : alookup (L.get_lock_dict g) item with
        | none => exact absurd hval habs
        | some info => exact ⟨info, rfl⟩
      by_cases hcond :
          ((decide (info.readers = []) || set_eq_single info.readers tid) &&
            (decide (info.writer = none) || decide (info.writer = some tid))) = true
      · constructor
        · simp [TwoPhaseLock.acquire_lock, hex, hshr, hhl, hpar, hinfo, hcond]
        · simp only [TwoPhaseLock.acquire_lock, hex, Bool.false_eq_true, reduceIte,
            hshr, hhl, hpar, hinfo, Option.isNone_some, Option.getD_some, hcond,
            if_true, Option.map_some]
          constructor
          · intro _
            right
            simpa [Bool.and_eq_true, Bool.or_eq_true, decide_eq_true_eq] using hcond
          · intro _
            rfl
      · constructor
        · simp [TwoPhaseLock.acquire_lock, hex, hshr, hhl, hpar, hinfo, hcond]
        · simp only [TwoPhaseLock.acquire_lock, hex, Bool.false_eq_true, reduceIte,
            hshr, hhl, hpar, hinfo, Option.isNone_some, Option.getD_some, hcond,
            Option.map_some]
          constructor
          · intro hfalse
            exact absurd hfalse (by simp)
          · intro hc
            rcases hc with hc | hc
            · exact hc.elim
            · exfalso
              apply hcond
              simp only [Bool.and_eq_true, Bool.or_eq_true, decide_eq_true_eq]
              exact ⟨hc.1, hc.2⟩

/-- C7 amended: assuming the transaction is not in the shrinking phase and
the parent check passes, an EXCLUSIVE acquire by `tid` on `item` returns —
without raising — and is granted **iff** the transaction already holds
*any* lock on the item (the `_has_lock` short-circuit at two_phase_lock.py
lines 205-207 returns `True` before the compatibility check, without
making the lock exclusive) **or** the item's reader set is empty or
`{tid}` and its writer is absent or `tid`.  The claim's condition is
therefore sufficient for a grant but not necessary: a transaction holding
a SHARED lock alongside other readers is still told `True`. -/
theorem C7_amended (L : TwoPhaseLock) (tid : Nat) (item : ItemId)
    (g : LockGranularity)
    (h1 : (alookup L.transactions tid).getD false = false)
    (h2 : L.check_parent_locks tid item g = some true) :
    (L.acquire_lock tid item LockMode.EXCLUSIVE g).isSome = true ∧
      ((L.acquire_lock tid item LockMode.EXCLUSIVE g).map Prod.fst = some true ↔
        (TwoPhaseLock.has_lock tid item (L.get_lock_dict g) = true ∨
          ((((alookup (L.get_lock_dict g) item).getD ⟨[], none⟩).readers = [] ∨
              set_eq_single ((alookup (L.get_lock_dict g) item).getD ⟨[], none⟩).readers
                tid = true) ∧
            (((alookup (L.get_lock_dict g) item).getD ⟨[], none⟩).writer = none ∨
              ((alookup (L.get_lock_dict g) item).getD ⟨[], none⟩).writer = some tid)))) := by
  by_cases hn : (alookup L.transactions tid).isNone = true
  · rw [acquire_insert_txn L tid item LockMode.EXCLUSIVE g hn]
    have hres := acquire_exclusive_existing
      { L with transactions := aupdate L.transactions tid false } tid item g
      (by simp [alookup_aupdate_self])
      (by simp [alookup_aupdate_self])
      (by rw [check_parent_set_transactions]; exact h2)
    simpa only [get_lock_dict_set_transactions] using hres
  · exact acquire_exclusive_existing L tid item g hn h1 h2

/-- C7 amended, witness: on the empty lock state, transaction 1 acquiring
an EXCLUSIVE table lock satisfies both hypotheses, and the
characterisation instantiates. -/
theorem C7_witness :
    (TwoPhaseLock.acquire_lock ⟨[], [], [], []⟩ 1 [("T" : String)]
        LockMode.EXCLUSIVE LockGranularity.TABLE).isSome = true ∧
      ((TwoPhaseLock.acquire_lock ⟨[], [], [], []⟩ 1 [("T" : String)]
          LockMode.EXCLUSIVE LockGranularity.TABLE).map Prod.fst = some true ↔
        (TwoPhaseLock.has_lock 1 [("T" : String)]
            (TwoPhaseLock.get_lock_dict ⟨[], [], [], []⟩ LockGranularity.TABLE) = true ∨
          ((((alookup (TwoPhaseLock.get_lock_dict ⟨[], [], [], []⟩ LockGranularity.TABLE)
                  [("T" : String)]).getD ⟨[], none⟩).readers = [] ∨
              set_eq_single
                (((alookup (TwoPhaseLock.get_lock_dict ⟨[], [], [], []⟩
                    LockGranularity.TABLE) [("T" : String)]).getD ⟨[], none⟩)).readers
                1 = true) ∧
            (((alookup (TwoPhaseLock.get_lock_dict ⟨[], [], [], []⟩ LockGranularity.TABLE)
                  [("T" : String)]).getD ⟨[], none⟩).writer = none ∨
              ((alookup (TwoPhaseLock.get_lock_dict ⟨[], [], [], []⟩ LockGranularity.TABLE)
                  [("T" : String)]).getD ⟨[], none⟩).writer = some 1)))) :=
  C7_amended ⟨[], [], [], []⟩ 1 [("T" : String)] LockGranularity.TABLE (by rfl) (by rfl)

/-- C7 counterexample: with readers `{1, 2}` on the item — a reader set
that is neither empty nor `{1}` — transaction 1's EXCLUSIVE acquire is
nevertheless *granted* (returns `True`, via the `_has_lock`
short-circuit), while transaction 1 is not shrinking and no parent item is
locked.  This refutes the claim's "granted if and only if the reader set
is empty or `{t}` …".  Moreover the grant is hollow: the item's writer is
still `None` afterwards. -/
theorem C7_counterexample :
    (alookup lock_state_c7.transactions 1).getD false = false ∧
    lock_state_c7.check_parent_locks 1
      [("T" : String), ("p0" : String), ("r1" : String)] LockGranularity.RECORD =
      some true ∧
    (TwoPhaseLock.acquire_lock lock_state_c7 1
        [("T" : String), ("p0" : String), ("r1" : String)]
        LockMode.EXCLUSIVE LockGranularity.RECORD).map Prod.fst = some true ∧
    ((alookup lock_state_c7.record_locks
        [("T" : String), ("p0" : String), ("r1" : String)]).getD ⟨[], none⟩).readers =
      [1, 2] ∧
    (TwoPhaseLock.acquire_lock lock_state_c7 1
        [("T" : String), ("p0" : String), ("r1" : String)]
        LockMode.EXCLUSIVE LockGranularity.RECORD).map
        (fun r => ((alookup r.2.record_locks
          [("T" : String), ("p0" : String), ("r1" : String)]).getD ⟨[], none⟩).writer) =
      some none := by
  exact ⟨rfl, rfl, rfl, rfl, rfl⟩

/-! ## C8 — eviction -/

/-- The single-pass scan of `evict_page` is equivalent to: stop at the
first clean unpinned frame; otherwise report the memo — the first dirty
unpinned frame — if any. -/
theorem evict_scan_spec (l : List (PagePath × Frame))
    (acc : Option (PagePath × Frame)) :
    BufferPool.evict_scan acc l =
      match BufferPool.first_clean_unpinned l with
      | some kv => .inr kv
      | none =>
          .inl (acc.orElse (fun _ => BufferPool.first_dirty_unpinned l)) := by
  induction l generalizing acc with
  | nil =>
      cases acc <;> rfl
  | cons kv rest ih =>
      by_cases hpin : kv.2.pin_count = 0
      · by_cases hdirty : kv.2.dirty_bit = false
        · simp [BufferPool.evict_scan, BufferPool.first_clean_unpinned,
            List.find?_cons, hpin, hdirty]
        · have hd : kv.2.dirty_bit = true := by
            cases h : kv.2.dirty_bit
            · exact absurd h hdirty
            · rfl
          cases acc with
          | none =>
              simp [BufferPool.evict_scan, BufferPool.first_clean_unpinned,
                BufferPool.first_dirty_unpinned, List.find?_cons, hpin, hd, ih]
          | some fd =>
              simp [BufferPool.evict_scan, BufferPool.first_clean_unpinned,
                BufferPool.first_dirty_unpinned, List.find?_cons, hpin, hd, ih]
      · simp [BufferPool.evict_scan, BufferPool.first_clean_unpinned,
          BufferPool.first_dirty_unpinned, List.find?_cons, hpin, ih]

/-- C8: eviction at capacity.  With the pool at capacity: (a) if some
frame has pin count 0 and a clear dirty bit, eviction removes the first
such frame (scanning from the LRU end) and touches the disk not at all;
(b) if none is clean but some frame has pin count 0 and a set dirty bit,
eviction writes the first such frame through `write_to_disk` and then
removes it; (c) if every frame is pinned, eviction returns `false` and
changes nothing; and (d) in that case `add_frame` for a path not in the
pool returns `None` to its caller. -/
theorem C8_eviction (s : Store) (hcap : s.frames.length ≥ s.pool_size) :
    (∀ kv, BufferPool.first_clean_unpinned s.frames = some kv →
        BufferPool.evict_page s = (true, { s with frames := aerase s.frames kv.1 })) ∧
    (∀ kv, BufferPool.first_clean_unpinned s.frames = none →
        BufferPool.first_dirty_unpinned s.frames = some kv →
        BufferPool.evict_page s =
          (true, { (BufferPool.write_to_disk s kv.1 kv.2.pid).2 with
                   frames := aerase (BufferPool.write_to_disk s kv.1 kv.2.pid).2.frames
                     kv.1 })) ∧
    ((∀ kv ∈ s.frames, kv.2.pin_count ≠ 0) →
        BufferPool.evict_page s = (false, s)) ∧
    (∀ path, (∀ kv ∈ s.frames, kv.2.pin_count ≠ 0) →
        alookup s.frames path = none →
        (BufferPool.add_frame s path none).1 = none) := by
  have hlt : ¬ s.frames.length < s.pool_size := by omega
  have hallpin : (∀ kv ∈ s.frames, kv.2.pin_count ≠ 0) →
      BufferPool.evict_page s = (false, s) := by
    intro hpin
    have hclean : BufferPool.first_clean_unpinned s.frames = none := by
      apply List.find?_eq_none.mpr
      intro kv hkv
      simp only [decide_eq_true_eq, not_and]
      intro hp
      exact absurd hp (hpin kv hkv)
    have hdirty : BufferPool.first_dirty_unpinned s.frames = none := by
      apply List.find?_eq_none.mpr
      intro kv hkv
      simp only [decide_eq_true_eq, not_and]
      intro hp
      exact absurd hp (hpin kv hkv)
    unfold BufferPool.evict_page
    rw [if_neg hlt, evict_scan_spec, hclean, hdirty]
    rfl
  refine ⟨?_, ?_, hallpin, ?_⟩
  · intro kv hkv
    unfold BufferPool.evict_page
    rw [if_neg hlt, evict_scan_spec, hkv]
  · intro kv hclean hdirty
    unfold BufferPool.evict_page
    rw [if_neg hlt, evict_scan_spec, hclean, hdirty]
    rfl
  · intro path hpin hpath
    unfold BufferPool.add_frame
    rw [hpath]
    have hev := hallpin hpin
    rw [if_pos ⟨hcap, by rw [hev]⟩]

/-- C8 witness: a two-frame pool at capacity (`pool_size = 2`) with both
frames pinned: eviction fails and `add_frame` for a fresh path returns
`None`. -/
theorem C8_witness :
    (let s : Store :=
      { frames := [(PagePath.base 0 0, ⟨0, 1, false⟩), (PagePath.tail 0 0, ⟨1, 2, false⟩)]
        io_count := 0
        pool_size := 2
        heap := [Page.empty, Page.empty]
        disk := [] }
     s.frames.length ≥ s.pool_size ∧
      (BufferPool.evict_page s = (false, s) ∧
        (BufferPool.add_frame s (PagePath.base 0 1) none).1 = none)) := by
  refine ⟨by decide, ?_, ?_⟩
  · exact (C8_eviction _ (by decide)).2.2.1 (by decide)
  · exact (C8_eviction _ (by decide)).2.2.2 (PagePath.base 0 1) (by decide) (by decide)

/-! ## C10 — pin-count monotonicity

`frames_ok` is the dictionary invariant (Python dict keys are unique);
`store_mono s s'` says that, from a unique-key state, the step to `s'`
keeps the invariant and never decreases any path's pin count. -/

theorem store_mono_refl (s : Store) : store_mono s s :=
  fun h => ⟨h, fun _ => le_refl _⟩

theorem store_mono_trans {a b c : Store} (h1 : store_mono a b)
    (h2 : store_mono b c) : store_mono a c := by
  intro ha
  obtain ⟨hb, p1⟩ := h1 ha
  obtain ⟨hc, p2⟩ := h2 hb
  exact ⟨hc, fun q => le_trans (p1 q) (p2 q)⟩

theorem store_mono_of_frames_eq {s s' : Store} (h : s'.frames = s.frames) :
    store_mono s s' := by
  intro hok
  constructor
  · unfold frames_ok
    rw [h]
    exact hok
  · intro q
    unfold pin_at
    rw [h]

theorem alookup_eq_none_iff {κ α : Type} [DecidableEq κ] (l : List (κ × α))
    (k : κ) : alookup l k = none ↔ k ∉ l.map Prod.fst := by
  induction l with
  | nil => simp [alookup_nil]
  | cons kv rest ih =>
      rw [alookup_cons, List.map_cons, List.mem_cons]
      by_cases h : kv.1 = k
      · simp [h]
      · simp only [h, if_false, ih]
        constructor
        · intro hn hc
          rcases hc with hc | hc
          · exact h hc.symm
          · exact hn hc
        · intro hn hc
          exact hn (Or.inr hc)

theorem aerase_sublist {κ α : Type} [DecidableEq κ] (l : List (κ × α)) (k : κ) :
    List.Sublist (aerase l k) l := by
  induction l with
  | nil => exact List.Sublist.refl _
  | cons kv rest ih =>
      by_cases h : kv.1 = k
      · rw [aerase, if_pos h]
        exact ih.cons kv
      · rw [aerase, if_neg h]
        exact ih.cons₂ kv

theorem frames_keys_aerase_nodup {κ α : Type} [DecidableEq κ]
    {l : List (κ × α)} (k : κ) (h : (l.map Prod.fst).Nodup) :
    ((aerase l k).map Prod.fst).Nodup :=
  ((aerase_sublist l k).map Prod.fst).nodup h

theorem alookup_of_mem_nodup {κ α : Type} [DecidableEq κ] {l : List (κ × α)}
    {kv : κ × α} (h : (l.map Prod.fst).Nodup) (hm : kv ∈ l) :
    alookup l kv.1 = some kv.2 := by
  induction l with
  | nil => cases hm
  | cons hd rest ih =>
      rcases List.mem_cons.mp hm with h1 | h1
      · subst h1
        simp [alookup_cons]
      · rw [List.map_cons, List.nodup_cons] at h
        have hne : hd.1 ≠ kv.1 := by
          intro hcon
          exact h.1 (hcon ▸ List.mem_map_of_mem Prod.fst h1)
        rw [alookup_cons, if_neg hne]
        exact ih h.2 h1

theorem keys_bump_list (l : List (PagePath × Frame)) (p : PagePath) :
    ((l.map (fun kv =>
        if kv.1 = p then (kv.1, { kv.2 with pin_count := kv.2.pin_count + 1 })
        else kv)).map Prod.fst) = l.map Prod.fst := by
  induction l with
  | nil => rfl
  | cons kv rest ih =>
      by_cases h : kv.1 = p <;> simp [h, ih]

theorem alookup_bump_list (l : List (PagePath × Frame)) (p q : PagePath) :
    alookup (l.map (fun kv =>
        if kv.1 = p then (kv.1, { kv.2 with pin_count := kv.2.pin_count + 1 })
        else kv)) q =
      if q = p then
        (alookup l q).map (fun f => { f with pin_count := f.pin_count + 1 })
      else alookup l q := by
  induction l with
  | nil => by_cases h : q = p <;> simp [alookup_nil, h]
  | cons kv rest ih =>
      by_cases hk : kv.1 = p
      · by_cases hq : q = p
        · subst hq
          simp [alookup_cons, hk, List.map_cons, ih]
        · have hpq : ¬ p = q := fun hc => hq hc.symm
          simp [alookup_cons, hk, List.map_cons, ih, hq, hpq]
      · by_cases hq2 : kv.1 = q
        · have hqp : ¬ q = p := by
            intro hc
            exact hk (hq2.symm ▸ hc ▸ rfl)
          simp [alookup_cons, hk, hq2, List.map_cons, hqp]
        · simp [alookup_cons, hk, hq2, List.map_cons, ih]

/-- `update_lru` keeps the key set unique and every pin count exactly as
it was. -/
theorem update_lru_mono (s : Store) (p : PagePath) :
    store_mono s (BufferPool.update_lru s p) := by
  unfold BufferPool.update_lru
  cases hf : alookup s.frames p with
  | none => exact store_mono_refl s
  | some f =>
      intro hok
      constructor
      · unfold frames_ok at *
        simp only [List.map_append, List.map_cons, List.map_nil]
        rw [List.nodup_append]
        refine ⟨frames_keys_aerase_nodup p hok, by simp, ?_⟩
        have hn : alookup (aerase s.frames p) p = none := alookup_aerase_self _ _
        rw [alookup_eq_none_iff] at hn
        intro a ha
        simp only [List.mem_singleton]
        intro hb
        exact hn (hb ▸ ha)
      · intro q
        unfold pin_at
        simp only []
        by_cases hq : q = p
        · subst hq
          rw [alookup_append, alookup_aerase_self]
          simp [alookup_cons, hf]
        · rw [alookup_append, alookup_aerase_ne _ _ _ hq]
          have hne : ¬ ((p, f) : PagePath × Frame).1 = q := fun hc => hq hc.symm
          cases hv : alookup s.frames q with
          | none => simp [alookup_cons, hne, alookup_nil]
          | some f' => simp

/-- `bump_pin` maps the frame at the path to the same frame with pin count
one higher: keys unchanged, pins only grow. -/
theorem bump_pin_mono (s : Store) (p : PagePath) :
    store_mono s (BufferPool.bump_pin s p) := by
  intro hok
  constructor
  · unfold frames_ok BufferPool.bump_pin at *
    simp only [keys_bump_list]
    exact hok
  · intro q
    unfold pin_at BufferPool.bump_pin
    simp only [alookup_bump_list]
    by_cases hq : q = p
    · simp only [hq, if_true]
      cases alookup s.frames p with
      | none => simp
      | some f => simp
    · simp [hq]

/-- The exact pin effect of `bump_pin` at the bumped path. -/
theorem bump_pin_at_self (s : Store) (p : PagePath)
    (hp : (alookup s.frames p).isSome) :
    pin_at (BufferPool.bump_pin s p) p = pin_at s p + 1 := by
  unfold pin_at BufferPool.bump_pin
  simp only [alookup_bump_list, if_pos rfl]
  cases hv : alookup s.frames p with
  | none => rw [hv] at hp; cases hp
  | some f => simp

/-- `update_lru` leaves every pin count exactly as it was. -/
theorem update_lru_pin_at (s : Store) (p q : PagePath) :
    pin_at (BufferPool.update_lru s p) q = pin_at s q := by
  unfold BufferPool.update_lru
  cases hf : alookup s.frames p with
  | none => rfl
  | some f =>
      unfold pin_at
      simp only []
      by_cases hq : q = p
      · subst hq
        rw [alookup_append, alookup_aerase_self]
        simp [alookup_cons, hf]
      · rw [alookup_append, alookup_aerase_ne _ _ _ hq]
        have hne : ¬ ((p, f) : PagePath × Frame).1 = q := fun hc => hq hc.symm
        cases hv : alookup s.frames q with
        | none => simp [alookup_cons, hne, alookup_nil]
        | some f' => simp

theorem alookup_aerase_none {κ α : Type} [DecidableEq κ] {l : List (κ × α)}
    {q : κ} (k : κ) (h : alookup l q = none) : alookup (aerase l k) q = none := by
  by_cases hq : q = k
  · subst hq
    exact alookup_aerase_self _ _
  · rw [alookup_aerase_ne _ _ _ hq]
    exact h

theorem write_to_disk_frames (s : Store) (p : PagePath) (pid : Nat) :
    ((BufferPool.write_to_disk s p pid).2).frames = s.frames := by
  unfold BufferPool.write_to_disk
  cases h : hget s.heap pid with
  | none => simp [h]
  | some pg => by_cases hs : pg.serialize_ok <;> simp [h, hs]

theorem read_from_disk_frames (s : Store) (p : PagePath) :
    ((BufferPool.read_from_disk s p).2).frames = s.frames := by
  unfold BufferPool.read_from_disk
  cases h : alookup s.disk p with
  | none => simp [h]
  | some pg => simp [h, halloc]

/-- Eviction from a unique-key state only ever deletes a frame whose pin
count is 0: keys stay unique, no pin decreases, and an absent key stays
absent. -/
theorem evict_page_props (s : Store) :
    store_mono s (BufferPool.evict_page s).2 ∧
      (∀ q, alookup s.frames q = none →
        alookup ((BufferPool.evict_page s).2).frames q = none) := by
  unfold BufferPool.evict_page
  by_cases hlt : s.frames.length < s.pool_size
  · simp only [hlt, if_true]
    exact ⟨store_mono_refl s, fun q h => h⟩
  · simp only [hlt, if_false]
    rw [evict_scan_spec]
    cases hc : BufferPool.first_clean_unpinned s.frames with
    | some kv =>
        simp only []
        have hmem := List.mem_of_find?_eq_some hc
        have hpred := List.find?_some hc
        simp only [decide_eq_true_eq] at hpred
        constructor
        · intro hok
          constructor
          · exact frames_keys_aerase_nodup kv.1 hok
          · intro q
            by_cases hq : q = kv.1
            · subst hq
              unfold pin_at
              simp only [alookup_aerase_self, alookup_of_mem_nodup hok hmem, hpred.1]
              exact Nat.le_refl 0
            · unfold pin_at
              simp only [alookup_aerase_ne _ _ _ hq]
              exact Nat.le_refl _
        · intro q h
          exact alookup_aerase_none kv.1 h
    | none =>
        cases hd : BufferPool.first_dirty_unpinned s.frames with
        | some kv =>
            simp only [Option.orElse]
            have hmem := List.mem_of_find?_eq_some hd
            have hpred := List.find?_some hd
            simp only [decide_eq_true_eq] at hpred
            constructor
            · intro hok
              constructor
              · unfold frames_ok
                rw [write_to_disk_frames]
                exact frames_keys_aerase_nodup kv.1 hok
              · intro q
                by_cases hq : q = kv.1
                · subst hq
                  unfold pin_at
                  simp only [write_to_disk_frames, alookup_aerase_self,
                    alookup_of_mem_nodup hok hmem, hpred.1]
                  exact Nat.le_refl 0
                · unfold pin_at
                  simp only [write_to_disk_frames, alookup_aerase_ne _ _ _ hq]
                  exact Nat.le_refl _
            · intro q h
              rw [write_to_disk_frames]
              exact alookup_aerase_none kv.1 h
        | none =>
            simp only [Option.orElse]
            exact ⟨store_mono_refl s, fun q h => h⟩

/-- Appending a fresh frame for an absent key: keys stay unique, a pin
count of 0 appears only where there was none. -/
theorem append_frame_mono (s : Store) (p : PagePath) (f : Frame)
    (hab : alookup s.frames p = none) :
    store_mono s { s with frames := s.frames ++ [(p, f)] } := by
  intro hok
  constructor
  · unfold frames_ok at *
    simp only [List.map_append, List.map_cons, List.map_nil]
    rw [List.nodup_append]
    refine ⟨hok, by simp, ?_⟩
    intro a ha
    simp only [List.mem_singleton]
    intro hb
    rw [alookup_eq_none_iff] at hab
    exact hab (hb ▸ ha)
  · intro q
    unfold pin_at
    simp only [alookup_append]
    cases hv : alookup s.frames q with
    | some f' => exact Nat.le_refl _
    | none => exact Nat.zero_le _

theorem add_frame_mono (s : Store) (p : PagePath) (pd : Option Nat) :
    store_mono s ((BufferPool.add_frame s p pd).2) := by
  unfold BufferPool.add_frame
  cases hl : alookup s.frames p with
  | some f => exact update_lru_mono s p
  | none =>
      by_cases hcap : s.frames.length ≥ s.pool_size ∧ (BufferPool.evict_page s).1 = false
      · simp only [hcap, if_true]
        exact (evict_page_props s).1
      · simp only [hcap, if_false]
        have hev := evict_page_props s
        have habs : alookup ((BufferPool.evict_page s).2).frames p = none :=
          hev.2 p hl
        cases pd with
        | some pid =>
            exact store_mono_trans hev.1 (append_frame_mono _ p _ habs)
        | none =>
            cases hr : BufferPool.read_from_disk (BufferPool.evict_page s).2 p with
            | mk pid? s' =>
                have hfr : s'.frames = ((BufferPool.evict_page s).2).frames := by
                  have := read_from_disk_frames (BufferPool.evict_page s).2 p
                  rw [hr] at this
                  exact this
                cases pid? with
                | none =>
                    simp only [hr]
                    exact store_mono_trans hev.1 (store_mono_of_frames_eq hfr)
                | some pid =>
                    simp only [hr]
                    refine store_mono_trans hev.1 (store_mono_trans
                      (store_mono_of_frames_eq hfr) (append_frame_mono s' p _ ?_))
                    rw [hfr]
                    exact habs

theorem get_page_mono (s : Store) (p : PagePath) :
    store_mono s ((BufferPool.get_page s p).2) := by
  unfold BufferPool.get_page
  cases hl : alookup s.frames p with
  | some f =>
      exact store_mono_trans (bump_pin_mono s p) (update_lru_mono _ p)
  | none =>
      cases ha : BufferPool.add_frame s p none with
      | mk f? s' =>
          have hs' : s' = (BufferPool.add_frame s p none).2 := by rw [ha]
          cases f? with
          | some f =>
              simp only []
              exact store_mono_trans (hs' ▸ add_frame_mono s p none)
                (bump_pin_mono s' p)
          | none =>
              simp only []
              exact hs' ▸ add_frame_mono s p none

theorem write_file_match_frames (s : Store) (path : PagePath) (p : Page) :
    (match write_file s path p with
      | some s' => s'
      | none => s).frames = s.frames := by
  unfold write_file
  by_cases h : p.serialize_ok <;> simp [h]

theorem heap_page_write_frames (s : Store) (pid : Nat) (r : LRecord) :
    (heap_page_write s pid r).frames = s.frames := by
  unfold heap_page_write
  cases h : hget s.heap pid <;> simp [h]

theorem heap_mutate_record_frames (s : Store) (pid off : Nat) (f : LRecord → LRecord) :
    (heap_mutate_record s pid off f).frames = s.frames := by
  unfold heap_mutate_record
  cases h : hget s.heap pid with
  | none => rfl
  | some p =>
      cases hr : p.data.get? off with
      | none => simp only [h, hr]
      | some r => simp only [h, hr]

theorem write_file_frames_some (s : Store) (path : PagePath) (p : Page)
    (s' : Store) (h : write_file s path p = some s') : s'.frames = s.frames := by
  unfold write_file at h
  by_cases hs : p.serialize_ok
  · simp only [hs, if_true] at h
    cases h
    rfl
  · simp [hs] at h

theorem get_tail_page_location_mono (t : Table) (pr : Nat) :
    store_mono t.store ((Table.get_tail_page_location t pr).2).store := by
  unfold Table.get_tail_page_location
  by_cases h : (alookup t.store.disk (PagePath.tail pr 0)).isNone
  · simp only [h, if_true]
    cases hh : halloc t.store.heap Page.empty with
    | mk pid hp =>
        simp only []
        have h1 : store_mono t.store { t.store with heap := hp } :=
          store_mono_of_frames_eq rfl
        cases hw : write_file { t.store with heap := hp } (PagePath.tail pr 0) Page.empty with
        | none =>
            simp only []
            cases ha : BufferPool.add_frame { t.store with heap := hp }
                (PagePath.tail pr 0) (some pid) with
            | mk f? s' =>
                simp only []
                have h2 := add_frame_mono { t.store with heap := hp }
                  (PagePath.tail pr 0) (some pid)
                rw [ha] at h2
                exact store_mono_trans h1 h2
        | some s1 =>
            simp only []
            cases ha : BufferPool.add_frame s1 (PagePath.tail pr 0) (some pid) with
            | mk f? s' =>
                simp only []
                have h2 : store_mono { t.store with heap := hp } s1 :=
                  store_mono_of_frames_eq (write_file_frames_some _ _ _ _ hw)
                have h3 := add_frame_mono s1 (PagePath.tail pr 0) (some pid)
                rw [ha] at h3
                exact store_mono_trans h1 (store_mono_trans h2 h3)
  · simp only [h, if_false]
    cases hg : (sort_by page_name_le (tail_indices t.store pr)).getLast? with
    | none => exact store_mono_refl _
    | some last => exact store_mono_refl _

theorem create_new_tail_page_mono (t : Table) (pr : Nat) :
    store_mono t.store ((Table.create_new_tail_page t pr).2).store := by
  unfold Table.create_new_tail_page
  cases hl : alookup t.latest_tail_indices pr with
  | some last =>
      simp only [hl]
      cases hw : write_file t.store (PagePath.tail pr (last + 1)) Page.empty with
      | none => exact store_mono_refl _
      | some s1 =>
          exact store_mono_of_frames_eq (write_file_frames_some _ _ _ _ hw)
  | none =>
      simp only [hl]
      cases hg : Table.get_tail_page_location t pr with
      | mk loc t1 =>
          simp only []
          have h1 : store_mono t.store t1.store := by
            have := get_tail_page_location_mono t pr
            rw [hg] at this
            exact this
          cases hw : write_file t1.store (PagePath.tail pr (loc.2 + 1)) Page.empty with
          | none => exact h1
          | some s1 =>
              exact store_mono_trans h1
                (store_mono_of_frames_eq (write_file_frames_some _ _ _ _ hw))

theorem table_merge_store (t : Table) (pr : Nat) :
    (Table.merge t pr).store = t.store := by
  unfold Table.merge
  by_cases h : t.merge_thread_alive <;> simp [h]

theorem engine_mono_refl (e : Engine) : engine_mono e e := store_mono_refl _

theorem engine_mono_trans {a b c : Engine} (h1 : engine_mono a b)
    (h2 : engine_mono b c) : engine_mono a c := store_mono_trans h1 h2

theorem tail_cache_lookup_mono (e : Engine) (pr : Nat) :
    engine_mono e ((Query.tail_cache_lookup e pr).2) := by
  unfold Query.tail_cache_lookup
  cases hl : alookup e.tail_page_cache pr with
  | some pc => exact engine_mono_refl e
  | none =>
      simp only [hl]
      cases hg : Table.get_tail_page_location e.table pr with
      | mk loc t' =>
          simp only []
          cases hp : BufferPool.get_page t'.store loc.1 with
          | mk pid? s =>
              simp only []
              have h1 : store_mono e.table.store t'.store := by
                have := get_tail_page_location_mono e.table pr
                rw [hg] at this
                exact this
              have h2 : store_mono t'.store s := by
                have := get_page_mono t'.store loc.1
                rw [hp] at this
                exact this
              exact store_mono_trans h1 h2

theorem tail_write_mono (e : Engine) (pr : Nat) (record : LRecord) :
    (∀ e', Query.tail_write e pr record = .error e' → engine_mono e e') ∧
      (∀ r e', Query.tail_write e pr record = .ok (r, e') → engine_mono e e') := by
  unfold Query.tail_write
  cases hl : Query.tail_cache_lookup e pr with
  | mk pc e1 =>
      have h1 : engine_mono e e1 := by
        have := tail_cache_lookup_mono e pr
        rw [hl] at this
        exact this
      simp only []
      cases hpc : pc.2 with
      | none =>
          simp only [hpc]
          constructor
          · intro e' he
            cases he
            exact h1
          · intro r e' he
            cases he
      | some cpid =>
          simp only [hpc]
          cases hh : hget e1.table.store.heap cpid with
          | none =>
              simp only [hh]
              constructor
              · intro e' he
                cases he
                exact h1
              · intro r e' he
                cases he
          | some page =>
              simp only [hh]
              by_cases hcap : page.has_capacity = true
              · simp only [hcap, if_true]
                constructor
                · intro e' he
                  cases he
                · intro r e' he
                  cases he
                  exact engine_mono_trans h1
                    (store_mono_of_frames_eq (heap_page_write_frames _ _ _))
              · simp only [hcap, Bool.false_eq_true, if_false]
                cases hc : Table.create_new_tail_page e1.table pr with
                | mk npl t2 =>
                    simp only [hc]
                    cases hha : halloc t2.store.heap (Page.write Page.empty record).2 with
                    | mk npid hp =>
                        simp only [hha]
                        cases hadd : BufferPool.add_frame { t2.store with heap := hp }
                            npl.1 (some npid) with
                        | mk f? s2 =>
                            simp only [hadd]
                            constructor
                            · intro e' he
                              cases he
                            · intro r e' he
                              cases he
                              have h2 : store_mono e1.table.store t2.store := by
                                have := create_new_tail_page_mono e1.table pr
                                rw [hc] at this
                                exact this
                              have h3 : store_mono t2.store { t2.store with heap := hp } :=
                                store_mono_of_frames_eq rfl
                              have h4 : store_mono { t2.store with heap := hp } s2 := by
                                have := add_frame_mono { t2.store with heap := hp }
                                  npl.1 (some npid)
                                rw [hadd] at this
                                exact this
                              exact engine_mono_trans h1 (store_mono_trans h2
                                (store_mono_trans h3 h4))

theorem add_frame_absent_result (s : Store) (p : PagePath) (pd : Option Nat)
    (hab : alookup s.frames p = none) (f : Frame)
    (hr : (BufferPool.add_frame s p pd).1 = some f) :
    alookup ((BufferPool.add_frame s p pd).2).frames p = some f ∧
      f.pin_count = 0 := by
  unfold BufferPool.add_frame at *
  simp only [hab] at hr ⊢
  have habs : alookup ((BufferPool.evict_page s).2).frames p = none :=
    (evict_page_props s).2 p hab
  by_cases hcap : s.frames.length ≥ s.pool_size ∧ (BufferPool.evict_page s).1 = false
  · simp only [hcap, if_true] at hr
    cases hr
  · simp only [hcap, if_false] at hr ⊢
    cases pd with
    | some pid =>
        simp only [] at hr ⊢
        cases hr
        constructor
        · rw [alookup_append, habs]
          simp [alookup_cons]
        · rfl
    | none =>
        cases hread : BufferPool.read_from_disk (BufferPool.evict_page s).2 p with
        | mk pid? s1 =>
            simp only [hread] at hr ⊢
            cases pid? with
            | none => cases hr
            | some pid =>
                simp only [] at hr ⊢
                cases hr
                constructor
                · have hfr : s1.frames = ((BufferPool.evict_page s).2).frames := by
                    have := read_from_disk_frames (BufferPool.evict_page s).2 p
                    rw [hread] at this
                    exact this
                  rw [alookup_append, hfr, habs]
                  simp [alookup_cons]
                · rfl

/-- `get_page` increments the accessed frame's pin count by exactly one
whenever it returns a page. -/
theorem get_page_pin_increment (s : Store) (p : PagePath)
    (hsome : ((BufferPool.get_page s p).1).isSome = true) :
    pin_at ((BufferPool.get_page s p).2) p = pin_at s p + 1 := by
  unfold BufferPool.get_page at *
  cases hl : alookup s.frames p with
  | some f =>
      simp only [hl]
      rw [update_lru_pin_at, bump_pin_at_self]
      rw [hl]
      rfl
  | none =>
      simp only [hl] at hsome ⊢
      cases ha : BufferPool.add_frame s p none with
      | mk f? s1 =>
          simp only [ha] at hsome ⊢
          cases f? with
          | none => simp at hsome
          | some f =>
              simp only []
              have hres := add_frame_absent_result s p none hl f (by rw [ha])
              rw [ha] at hres
              have hres1 : alookup s1.frames p = some f := hres.1
              have hpin0 : pin_at s1 p = 0 := by
                unfold pin_at
                rw [hres1]
                exact hres.2
              have hbump := bump_pin_at_self s1 p (by rw [hres1]; rfl)
              rw [hbump, hpin0]
              unfold pin_at
              rw [hl]

theorem get_merged_lineage_mono (e : Engine) (rid : Rid) (mask : List Int) :
    engine_mono e ((Query.get_merged_lineage e rid mask).2) := by
  unfold Query.get_merged_lineage
  cases h1 : alookup e.table.page_directory rid with
  | none => simp only [h1]; exact engine_mono_refl e
  | some entry =>
  simp only [h1]
  cases h2 : entry.as_pair with
  | none => exact engine_mono_refl e
  | some loc =>
  simp only [h2]
  cases loc with
  | mk base_path base_offset =>
  simp only []
  cases h3 : BufferPool.get_page e.table.store base_path with
  | mk bpid? s =>
  try simp only [h3]
  have hm3 : store_mono e.table.store s := by
    have := get_page_mono e.table.store base_path
    rw [h3] at this
    exact this
  cases bpid? with
  | none => exact hm3
  | some bpid =>
  simp only []
  cases h4 : hget s.heap bpid with
  | none => exact hm3
  | some base_page =>
  simp only [h4]
  by_cases h5 : base_offset ≥ base_page.num_records
  · simp only [h5, if_true]
    exact hm3
  · simp only [h5, if_false]
    cases h6 : base_page.read_index base_offset with
    | none => exact hm3
    | some base_record =>
    simp only [h6]
    cases h7 : alookup e.table.page_directory base_record.indirection with
    | none => exact hm3
    | some tentry =>
    simp only [h7]
    cases h8 : tentry.as_pair with
    | none => exact hm3
    | some tloc =>
    simp only [h8]
    cases tloc with
    | mk ltp lto =>
    simp only []
    cases h9 : BufferPool.get_page s ltp with
    | mk tpid? s2 =>
    try simp only [h9]
    have hm9 : store_mono s s2 := by
      have := get_page_mono s ltp
      rw [h9] at this
      exact this
    cases tpid? with
    | none => exact store_mono_trans hm3 hm9
    | some tpid =>
    simp only []
    cases h10 : hget s2.heap tpid with
    | none => exact store_mono_trans hm3 hm9
    | some tail_page =>
    simp only [h10]
    by_cases h11 : lto ≥ tail_page.num_records
    · simp only [h11, if_true]
      exact store_mono_trans hm3 hm9
    · simp only [h11, if_false]
      cases h12 : tail_page.read_index lto with
      | none => exact store_mono_trans hm3 hm9
      | some last_tail_record =>
      simp only [h12]
      cases h13 : last_tail_record.start_time_attr with
      | none => exact store_mono_trans hm3 hm9
      | some st => exact store_mono_trans hm3 hm9

theorem version_walk_mono (n : Nat) :
    ∀ (e : Engine) (rid : Rid) (last : Option LRecord),
      (∀ e', Query.version_walk e n rid last = .error e' → engine_mono e e') ∧
      (∀ r e', Query.version_walk e n rid last = .ok (r, e') → engine_mono e e') := by
  induction n with
  | zero =>
      intro e rid last
      cases last with
      | none =>
          constructor
          · intro e' he
            cases he
            exact engine_mono_refl _
          · intro r e' he
            cases he
      | some rec =>
          constructor
          · intro e' he
            cases he
          · intro r e' he
            cases he
            exact engine_mono_refl _
  | succ n ih =>
      intro e rid last
      unfold Query.version_walk
      cases h1 : alookup e.table.page_directory rid with
      | none =>
          simp only [h1]
          constructor
          · intro e' he
            cases he
            exact engine_mono_refl _
          · intro r e' he
            cases he
      | some entry =>
      simp only [h1]
      cases h2 : entry.as_pair with
      | none =>
          constructor
          · intro e' he
            cases he
            exact engine_mono_refl _
          · intro r e' he
            cases he
      | some loc =>
      simp only [h2]
      cases loc with
      | mk p off =>
      simp only []
      cases h3 : BufferPool.get_page e.table.store p with
      | mk pid? s =>
      try simp only [h3]
      have hm3 : store_mono e.table.store s := by
        have := get_page_mono e.table.store p
        rw [h3] at this
        exact this
      cases pid? with
      | none =>
          constructor
          · intro e' he
            cases he
            exact hm3
          · intro r e' he
            cases he
      | some pid =>
      simp only []
      cases h4 : (hget s.heap pid).bind (fun pg => pg.read_index off) with
      | none =>
          constructor
          · intro e' he
            cases he
            exact hm3
          · intro r e' he
            cases he
      | some rec =>
      simp only [h4]
      by_cases h5 : rec.indirection = rec.base_rid
      · simp only [h5, if_true]
        constructor
        · intro e' he
          cases he
        · intro r e' he
          cases he
          exact hm3
      · simp only [h5, if_false]
        have hrec := ih { e with table := { e.table with store := s } }
          rec.indirection (some rec)
        have hm3e : engine_mono e { e with table := { e.table with store := s } } := hm3
        constructor
        · intro e' he
          exact engine_mono_trans hm3e (hrec.1 e' he)
        · intro r e' he
          exact engine_mono_trans hm3e (hrec.2 r e' he)

theorem sum_walk_mono (n : Nat) :
    ∀ (e : Engine) (rid : Rid) (last : Option LRecord),
      (∀ e', Query.sum_walk e n rid last = .error e' → engine_mono e e') ∧
      (∀ r e', Query.sum_walk e n rid last = .ok (r, e') → engine_mono e e') := by
  induction n with
  | zero =>
      intro e rid last
      cases last with
      | none =>
          constructor
          · intro e' he
            cases he
            exact engine_mono_refl _
          · intro r e' he
            cases he
      | some rec =>
          constructor
          · intro e' he
            cases he
          · intro r e' he
            cases he
            exact engine_mono_refl _
  | succ n ih =>
      intro e rid last
      unfold Query.sum_walk
      cases h1 : alookup e.table.page_directory rid with
      | none =>
          simp only [h1]
          constructor
          · intro e' he
            cases he
            exact engine_mono_refl _
          · intro r e' he
            cases he
      | some entry =>
      simp only [h1]
      cases h2 : entry.as_pair with
      | none =>
          constructor
          · intro e' he
            cases he
            exact engine_mono_refl _
          · intro r e' he
            cases he
      | some loc =>
      simp only [h2]
      cases loc with
      | mk p off =>
      simp only []
      cases h3 : BufferPool.get_page e.table.store p with
      | mk pid? s =>
      try simp only [h3]
      have hm3 : store_mono e.table.store s := by
        have := get_page_mono e.table.store p
        rw [h3] at this
        exact this
      cases pid? with
      | none =>
          constructor
          · intro e' he
            cases he
            exact hm3
          · intro r e' he
            cases he
      | some pid =>
      simp only []
      cases h4 : (hget s.heap pid).bind (fun pg => pg.read_index off) with
      | none =>
          constructor
          · intro e' he
            cases he
            exact hm3
          · intro r e' he
            cases he
      | some rec =>
      simp only [h4]
      have hrec := ih { e with table := { e.table with store := s } }
        rec.indirection (some rec)
      have hm3e : engine_mono e { e with table := { e.table with store := s } } := hm3
      constructor
      · intro e' he
        exact engine_mono_trans hm3e (hrec.1 e' he)
      · intro r e' he
        exact engine_mono_trans hm3e (hrec.2 r e' he)

theorem insert_mono (e : Engine) (cols : List (Option Int)) :
    ∀ r e', Query.insert e cols = (r, e') → engine_mono e e' := by
  intro r e' h
  unfold Query.insert at h
  split at h
  · cases h
    exact engine_mono_refl e
  · simp only [] at h
    split at h
    · cases h
      exact store_mono_of_frames_eq rfl
    · split at h
      · next s heq =>
          cases h
          have hm : store_mono e.table.store s := by
            have h0 := get_page_mono e.table.store e.table.last_path
            rw [heq] at h0
            exact h0
          exact hm
      · next pid s heq =>
          have hm : store_mono e.table.store s := by
            have h0 := get_page_mono e.table.store e.table.last_path
            rw [heq] at h0
            exact h0
          split at h
          · cases h
            exact hm
          · next last_page hpg =>
            split at h
            · cases h
              exact store_mono_trans hm
                (store_mono_of_frames_eq (heap_page_write_frames _ _ _))
            · split at h
              · split at h
                · next s1 hwf =>
                    cases h
                    have hfr := write_file_frames_some _ _ _ _ hwf
                    refine store_mono_trans hm
                      (store_mono_trans (store_mono_of_frames_eq ?_)
                        (add_frame_mono _ _ _))
                    exact hfr
                · cases h
                  refine store_mono_trans hm
                    (store_mono_trans (store_mono_of_frames_eq ?_)
                      (add_frame_mono _ _ _))
                  rfl
              · cases h
                exact store_mono_trans hm (store_mono_of_frames_eq rfl)

theorem select_version_mono (e : Engine) (k : Option Int) (c : Nat)
    (mask : List Int) (rv : Int) :
    ∀ r e', Query.select_version e k c mask rv = (r, e') → engine_mono e e' := by
  intro r e' h
  unfold Query.select_version at h
  simp only [] at h
  split at h
  · cases h
    exact store_mono_of_frames_eq rfl
  · rename_i rid heq
    split at h
    · rename_i e1 hw
      cases h
      refine engine_mono_trans (store_mono_of_frames_eq ?_)
        ((version_walk_mono _ _ _ _).1 _ hw)
      rfl
    · rename_i temp e1 hw
      cases h
      refine engine_mono_trans (store_mono_of_frames_eq ?_)
        ((version_walk_mono _ _ _ _).2 _ _ hw)
      rfl

theorem select_mono (e : Engine) (k : Option Int) (c : Nat) (mask : List Int) :
    ∀ r e', Query.select e k c mask = (r, e') → engine_mono e e' := by
  intro r e' h
  unfold Query.select at h
  simp only [] at h
  split at h
  · cases h
    exact store_mono_of_frames_eq rfl
  · rename_i rid heq
    split at h
    · rename_i rec hl
      cases h
      refine engine_mono_trans (store_mono_of_frames_eq ?_)
        (get_merged_lineage_mono _ rid mask)
      rfl
    · rename_i hl
      cases h
      refine engine_mono_trans (store_mono_of_frames_eq ?_)
        (get_merged_lineage_mono _ rid mask)
      rfl

theorem delete_mono (e : Engine) (k : Option Int) :
    ∀ r e', Query.delete e k = (r, e') → engine_mono e e' := by
  intro r e' h
  unfold Query.delete at h
  simp only [] at h
  split at h
  · cases h
    exact store_mono_of_frames_eq rfl
  · split at h
    · cases h
      exact store_mono_of_frames_eq rfl
    · split at h
      · cases h
        exact store_mono_of_frames_eq rfl
      · rename_i bp bo heqP
        split at h
        · rename_i s heq1
          cases h
          have hm1 : store_mono e.table.store s := by
            have h0 := get_page_mono e.table.store bp
            rw [heq1] at h0
            exact h0
          exact hm1
        · rename_i bpid s heq1
          have hm1 : store_mono e.table.store s := by
            have h0 := get_page_mono e.table.store bp
            rw [heq1] at h0
            exact h0
          split at h
          · cases h
            exact hm1
          · split at h
            · cases h
              exact hm1
            · split at h
              · cases h
                exact hm1
              · rename_i ltp lto heqT
                split at h
                · rename_i s2 heq2
                  cases h
                  have hm2 : store_mono s s2 := by
                    have h0 := get_page_mono s ltp
                    rw [heq2] at h0
                    exact h0
                  exact store_mono_trans hm1 hm2
                · rename_i tpid s2 heq2
                  have hm2 : store_mono s s2 := by
                    have h0 := get_page_mono s ltp
                    rw [heq2] at h0
                    exact h0
                  split at h
                  · cases h
                    exact store_mono_trans hm1 hm2
                  · split at h
                    · rename_i e1 hw
                      cases h
                      have hTW := (tail_write_mono _ _ _).1 _ hw
                      refine engine_mono_trans ?_ hTW
                      exact store_mono_trans hm1 (store_mono_trans hm2
                        (store_mono_of_frames_eq (heap_mutate_record_frames _ _ _ _)))
                    · rename_i ip off e1 hw
                      have hTW := (tail_write_mono _ _ _).2 _ _ hw
                      have hmX := engine_mono_trans
                        (store_mono_trans hm1 (store_mono_trans hm2
                          (store_mono_of_frames_eq (heap_mutate_record_frames _ _ _ _)))) hTW
                      split at h
                      · cases h
                        exact engine_mono_trans hmX (store_mono_of_frames_eq rfl)
                      · split at h
                        · cases h
                          exact engine_mono_trans hmX (store_mono_of_frames_eq rfl)
                        · split at h
                          · cases h
                            refine engine_mono_trans hmX (store_mono_of_frames_eq ?_)
                            rw [table_merge_store]
                          · cases h
                            exact engine_mono_trans hmX (store_mono_of_frames_eq rfl)

theorem update_mono (e : Engine) (k : Option Int) (cols : List (Option Int)) :
    ∀ r e', Query.update e k cols = (r, e') → engine_mono e e' := by
  intro r e' h
  unfold Query.update at h
  simp only [] at h
  split at h
  · cases h
    exact store_mono_of_frames_eq rfl
  · split at h
    · cases h
      exact store_mono_of_frames_eq rfl
    · split at h
      · cases h
        exact store_mono_of_frames_eq rfl
      · rename_i bp bo heqP
        split at h
        · rename_i s heq1
          cases h
          have hm1 : store_mono e.table.store s := by
            have h0 := get_page_mono e.table.store bp
            rw [heq1] at h0
            exact h0
          exact hm1
        · rename_i bpid s heq1
          have hm1 : store_mono e.table.store s := by
            have h0 := get_page_mono e.table.store bp
            rw [heq1] at h0
            exact h0
          split at h
          · cases h
            exact hm1
          · rename_i base_record heqB
            split at h
            · -- the `prev` computation raised
              rename_i e1 hprev
              cases h
              split at hprev
              · -- existing previous tail record chain
                split at hprev
                · cases hprev
                  exact hm1
                · split at hprev
                  · cases hprev
                    exact hm1
                  · rename_i ltp lto heqT
                    split at hprev
                    · rename_i s2 heq2
                      cases hprev
                      have hm2 : store_mono s s2 := by
                        have h0 := get_page_mono s ltp
                        rw [heq2] at h0
                        exact h0
                      exact store_mono_trans hm1 hm2
                    · rename_i tpid s2 heq2
                      have hm2 : store_mono s s2 := by
                        have h0 := get_page_mono s ltp
                        rw [heq2] at h0
                        exact h0
                      split at hprev
                      · cases hprev
                        exact store_mono_trans hm1 hm2
                      · cases hprev
              · -- first update: writing the original-copy tail record raised
                split at hprev
                · rename_i e2 hw
                  cases hprev
                  have hTW := (tail_write_mono _ _ _).1 _ hw
                  refine engine_mono_trans ?_ hTW
                  exact hm1
                · cases hprev
            · -- the `prev` computation returned the previous tail record
              rename_i ltr e1 hprev
              have hPrev : engine_mono e e1 := by
                split at hprev
                · -- existing previous tail record chain
                  split at hprev
                  · cases hprev
                  · split at hprev
                    · cases hprev
                    · rename_i ltp lto heqT
                      split at hprev
                      · cases hprev
                      · rename_i tpid s2 heq2
                        have hm2 : store_mono s s2 := by
                          have h0 := get_page_mono s ltp
                          rw [heq2] at h0
                          exact h0
                        split at hprev
                        · cases hprev
                        · cases hprev
                          exact store_mono_trans hm1 hm2
                · -- first update: the original-copy tail write succeeded
                  split at hprev
                  · cases hprev
                  · rename_i ip off e2 hw
                    cases hprev
                    have hTW := (tail_write_mono _ _ _).2 _ _ hw
                    refine engine_mono_trans
                      (engine_mono_trans ?_ hTW) (store_mono_of_frames_eq rfl)
                    exact hm1
              split at h
              · cases h
                exact hPrev
              · rename_i ns nc heqBU
                split at h
                · rename_i e2 hw2
                  cases h
                  have hTW2 := (tail_write_mono _ _ _).1 _ hw2
                  refine engine_mono_trans hPrev (engine_mono_trans ?_ hTW2)
                  exact store_mono_of_frames_eq (heap_mutate_record_frames _ _ _ _)
                · rename_i ip off e2 hw2
                  have hTW2 := (tail_write_mono _ _ _).2 _ _ hw2
                  have hmX : engine_mono e e2 := by
                    refine engine_mono_trans hPrev (engine_mono_trans ?_ hTW2)
                    exact store_mono_of_frames_eq (heap_mutate_record_frames _ _ _ _)
                  split at h
                  · cases h
                    exact engine_mono_trans hmX (store_mono_of_frames_eq rfl)
                  · split at h
                    · cases h
                      refine engine_mono_trans hmX (store_mono_of_frames_eq ?_)
                      rw [table_merge_store]
                    · cases h
                      exact engine_mono_trans hmX (store_mono_of_frames_eq rfl)

theorem foldl_except_error {α : Type}
    (f : Except Engine (Int × Engine) → α → Except Engine (Int × Engine))
    (hferr : ∀ e x, f (.error e) x = .error e) :
    ∀ (l : List α) (e : Engine), l.foldl f (.error e) = .error e := by
  intro l
  induction l with
  | nil => intro e; rfl
  | cons x xs ih =>
      intro e
      rw [List.foldl_cons, hferr]
      exact ih e

theorem foldl_except_mono {α : Type}
    (f : Except Engine (Int × Engine) → α → Except Engine (Int × Engine))
    (hferr : ∀ e x, f (.error e) x = .error e)
    (hfstep : ∀ (total : Int) (e : Engine) x,
      (∀ e', f (.ok (total, e)) x = .error e' → engine_mono e e') ∧
        (∀ v e', f (.ok (total, e)) x = .ok (v, e') → engine_mono e e')) :
    ∀ (l : List α) (total : Int) (e0 : Engine),
      (∀ e', l.foldl f (.ok (total, e0)) = .error e' → engine_mono e0 e') ∧
        (∀ v e', l.foldl f (.ok (total, e0)) = .ok (v, e') → engine_mono e0 e') := by
  intro l
  induction l with
  | nil =>
      intro total e0
      constructor
      · intro e' he
        rw [List.foldl_nil] at he
        cases he
      · intro v e' he
        rw [List.foldl_nil] at he
        cases he
        exact engine_mono_refl e0
  | cons x xs ih =>
      intro total e0
      simp only [List.foldl_cons]
      cases hstep : f (.ok (total, e0)) x with
      | error e1 =>
          constructor
          · intro e' he
            rw [foldl_except_error f hferr xs e1] at he
            cases he
            exact (hfstep total e0 x).1 _ hstep
          · intro v e' he
            rw [foldl_except_error f hferr xs e1] at he
            cases he
      | ok p =>
          obtain ⟨v1, e1⟩ := p
          have hm1 := (hfstep total e0 x).2 v1 e1 hstep
          have hih := ih v1 e1
          constructor
          · intro e' he
            exact engine_mono_trans hm1 (hih.1 e' he)
          · intro v e' he
            exact engine_mono_trans hm1 (hih.2 v e' he)

theorem sum_mono (e : Engine) (a b : Int) (agg : Nat) :
    ∀ r e', Query.sum e a b agg = (r, e') → engine_mono e e' := by
  intro r e' h
  unfold Query.sum at h
  split at h
  · cases h
    exact engine_mono_refl e
  · rename_i rid_dict heqL
    simp only [] at h
    split at h
    · rename_i e1 hfe
      cases h
      refine (foldl_except_mono _ ?_ ?_ rid_dict 0 e).1 _ hfe
      · intro e2 x
        rfl
      · intro total e2 x
        constructor
        · intro e3 hx
          simp only [] at hx
          split at hx
          · cases hx
          · split at hx
            · cases hx
              exact get_merged_lineage_mono e2 _ _
            · cases hx
            · cases hx
        · intro v e3 hx
          simp only [] at hx
          split at hx
          · cases hx
            exact get_merged_lineage_mono e2 _ _
          · split at hx
            · cases hx
            · cases hx
              exact get_merged_lineage_mono e2 _ _
            · cases hx
              exact get_merged_lineage_mono e2 _ _
    · rename_i total e1 hfe
      cases h
      refine (foldl_except_mono _ ?_ ?_ rid_dict 0 e).2 _ _ hfe
      · intro e2 x
        rfl
      · intro tot e2 x
        constructor
        · intro e3 hx
          simp only [] at hx
          split at hx
          · cases hx
          · split at hx
            · cases hx
              exact get_merged_lineage_mono e2 _ _
            · cases hx
            · cases hx
        · intro v e3 hx
          simp only [] at hx
          split at hx
          · cases hx
            exact get_merged_lineage_mono e2 _ _
          · split at hx
            · cases hx
            · cases hx
              exact get_merged_lineage_mono e2 _ _
            · cases hx
              exact get_merged_lineage_mono e2 _ _

theorem sum_version_mono (e : Engine) (a b : Int) (agg : Nat) (rv : Int) :
    ∀ r e', Query.sum_version e a b agg rv = (r, e') → engine_mono e e' := by
  intro r e' h
  unfold Query.sum_version at h
  split at h
  · cases h
    exact engine_mono_refl e
  · rename_i rid_dict heqL
    simp only [] at h
    split at h
    · rename_i e1 hfe
      cases h
      refine (foldl_except_mono _ ?_ ?_ rid_dict 0 e).1 _ hfe
      · intro e2 x
        rfl
      · intro total e2 x
        constructor
        · intro e3 hx
          simp only [] at hx
          split at hx
          · cases hx
            exact (sum_walk_mono _ _ _ _).1 _ (by assumption)
          · split at hx
            · cases hx
            · cases hx
              exact (sum_walk_mono _ _ _ _).2 _ _ (by assumption)
        · intro v e3 hx
          simp only [] at hx
          split at hx
          · cases hx
          · split at hx
            · cases hx
              exact (sum_walk_mono _ _ _ _).2 _ _ (by assumption)
            · cases hx
    · rename_i total e1 hfe
      cases h
      refine (foldl_except_mono _ ?_ ?_ rid_dict 0 e).2 _ _ hfe
      · intro e2 x
        rfl
      · intro tot e2 x
        constructor
        · intro e3 hx
          simp only [] at hx
          split at hx
          · cases hx
            exact (sum_walk_mono _ _ _ _).1 _ (by assumption)
          · split at hx
            · cases hx
            · cases hx
              exact (sum_walk_mono _ _ _ _).2 _ _ (by assumption)
        · intro v e3 hx
          simp only [] at hx
          split at hx
          · cases hx
          · split at hx
            · cases hx
              exact (sum_walk_mono _ _ _ _).2 _ _ (by assumption)
            · cases hx

theorem run_op_mono (op : QOp) (e : Engine) : engine_mono e (run_op op e) := by
  cases op with
  | insert cols => exact insert_mono e cols _ _ rfl
  | update k cols => exact update_mono e k cols _ _ rfl
  | delete k => exact delete_mono e k _ _ rfl
  | select k c mask => exact select_mono e k c mask _ _ rfl
  | select_version k c mask rv => exact select_version_mono e k c mask rv _ _ rfl
  | sum a b agg => exact sum_mono e a b agg _ _ rfl
  | sum_version a b agg rv => exact sum_version_mono e a b agg rv _ _ rfl

theorem run_ops_mono (ops : List QOp) : ∀ e, engine_mono e (run_ops ops e) := by
  induction ops with
  | nil => intro e; exact engine_mono_refl e
  | cons op ops ih =>
      intro e
      exact engine_mono_trans (run_op_mono op e) (ih (run_op op e))

/-- C10: no `Query` operation ever decrements a frame's pin count.
`BufferPool.get_page` increments the accessed frame's pin count by one on
every access that returns a page (bufferpool.py lines 158-180), and no
query path ever calls `unpin_page`, so over any sequence of `Query`
operations (insert, update, delete, select, select_version, sum,
sum_version) every frame's pin count is monotonically non-decreasing (and
the frame keys stay distinct). -/
theorem C10_pin_monotone :
    (∀ (s : Store) (p : PagePath),
        ((BufferPool.get_page s p).1).isSome = true →
        pin_at ((BufferPool.get_page s p).2) p = pin_at s p + 1) ∧
    (∀ (ops : List QOp) (e : Engine),
        frames_ok e.table.store →
        frames_ok (run_ops ops e).table.store ∧
        ∀ p, pin_at e.table.store p ≤ pin_at (run_ops ops e).table.store p) :=
  ⟨get_page_pin_increment, fun ops e hok => run_ops_mono ops e hok⟩

theorem C10_witness :
    ((BufferPool.get_page pinned_store (PagePath.base 0 0)).1).isSome = true ∧
    pin_at ((BufferPool.get_page pinned_store (PagePath.base 0 0)).2)
        (PagePath.base 0 0) = pin_at pinned_store (PagePath.base 0 0) + 1 ∧
    frames_ok (Engine.fresh 3 0).table.store ∧
    pin_at (Engine.fresh 3 0).table.store (PagePath.base 0 0) ≤
      pin_at (run_ops [QOp.insert [some 7, some 8, some 9]]
          (Engine.fresh 3 0)).table.store (PagePath.base 0 0) :=
  ⟨by decide,
   C10_pin_monotone.1 pinned_store (PagePath.base 0 0) (by decide),
   List.nodup_nil,
   (C10_pin_monotone.2 [QOp.insert [some 7, some 8, some 9]] (Engine.fresh 3 0)
       List.nodup_nil).2 (PagePath.base 0 0)⟩
